import Mathlib

/-!
Shallow embedding of the template-synchronization engine of margo
(src/config.rs): the manifest codec (save_manifest / load_manifest), the
filesystem model, the reconciliation loop (refresh_templates) and the
bootstrap initializer (ensure_templates_initialized).

Modelling conventions:
* Paths are lists of segments (PathBuf::join appends one component).
* The filesystem is an association list of (path, content) files; a write
  conses a new entry, which shadows any older entry for the same path.
  Directories are implicit, so create_dir_all is a no-op.
* fs::write failures are modelled by an explicit set of failing paths
  (wfail); fs::read_to_string of an existing file always succeeds.
* The SHA-256 digest (hash_content) is modelled as an abstract function
  parameter hash : String -> String; the engine only ever compares digests
  for equality. Claims whose meaning needs collision-freedom take an
  injectivity hypothesis.
* The build version env!("CARGO_PKG_VERSION") is an abstract parameter.
-/

set_option maxRecDepth 4000
set_option maxHeartbeats 1000000

namespace Margo

/-- Rust char::is_whitespace: the Unicode White_Space code points
U+0009..U+000D, U+0020, U+0085, U+00A0, U+1680, U+2000..U+200A, U+2028,
U+2029, U+202F, U+205F and U+3000. -/
def rustIsWhitespace (c : Char) : Bool :=
  decide (c.toNat ∈ [9, 10, 11, 12, 13, 32, 133, 160, 5760,
    8232, 8233, 8239, 8287, 12288]) ||
  (decide (8192 ≤ c.toNat) && decide (c.toNat ≤ 8202))

/-- Rust str::trim on character lists: drop Unicode whitespace from both
ends. -/
def trimChars (l : List Char) : List Char :=
  ((l.dropWhile rustIsWhitespace).reverse.dropWhile rustIsWhitespace).reverse

/-- Rust str::trim applied to a string. -/
def rustTrim (s : String) : String := String.mk (trimChars s.data)

/-- Rust str::lines on character lists: split at each newline, with no
trailing empty line. (Rust additionally drops one trailing carriage return
per line; every caller below trims the line afterwards, which removes such
a carriage return equally.) -/
def linesSplit : List Char → List Char → List (List Char)
  | [], acc => if acc.isEmpty then [] else [acc.reverse]
  | c :: rest, acc =>
    if c = '\n' then acc.reverse :: linesSplit rest []
    else linesSplit rest (c :: acc)

/-- Rust str::lines applied to a string. -/
def rustLines (s : String) : List String :=
  (linesSplit s.data []).map String.mk

/-- Split a character list at its first colon: the part before it, and the
rest after it when a colon is present. Iterating this models Rust
splitn(3, colon): two splits, the third field keeping any further colons. -/
def breakOnColon : List Char → List Char × Option (List Char)
  | [] => ([], none)
  | c :: rest =>
    if c = ':' then ([], some rest)
    else
      let p := breakOnColon rest
      (c :: p.1, p.2)

/-- The version-line test of load_manifest: when the trimmed line begins
with the eight characters of "version=", return the remainder. -/
def stripVersionEq : List Char → Option (List Char)
  | 'v' :: 'e' :: 'r' :: 's' :: 'i' :: 'o' :: 'n' :: '=' :: rest => some rest
  | _ => none

/-- Characters after the last dot of the scanned name part. -/
def extAux : List Char → Option (List Char) → Option (List Char)
  | [], acc => acc
  | c :: rest, acc => if c = '.' then extAux rest (some rest) else extAux rest acc

/-- Rust Path::extension for a plain file name: the text after the last dot,
none when there is no dot or when the only dot is the leading one. -/
def rustExtension (nm : String) : Option String :=
  match nm.data with
  | [] => none
  | c :: rest => (extAux (if c = '.' then rest else c :: rest) none).map String.mk

/-- extension().map(|e| e == "toml").unwrap_or(false). -/
def hasTomlExt (nm : String) : Bool := decide (rustExtension nm = some "toml")

/-- TemplateKind from src/config.rs. -/
inductive TemplateKind where
  | Baselines
  | Outcomes
deriving DecidableEq

/-- TemplateKind::as_str. -/
def TemplateKind.as_str : TemplateKind → String
  | .Baselines => "baselines"
  | .Outcomes => "outcomes"

/-- TemplateKind::from_str. -/
def TemplateKind.from_str : String → Option TemplateKind
  | "baselines" => some .Baselines
  | "outcomes" => some .Outcomes
  | _ => none

/-- TemplateAsset: one bundled asset (kind, name, content). -/
structure TemplateAsset where
  kind : TemplateKind
  name : String
  content : String
deriving DecidableEq

/-- ManifestEntry: the digest recorded for one (kind, name). -/
structure ManifestEntry where
  kind : TemplateKind
  name : String
  hash : String
deriving DecidableEq

/-- TemplateManifest: version plus ordered entry list. -/
structure TemplateManifest where
  version : String
  entries : List ManifestEntry
deriving DecidableEq

/-- TemplateRefreshReport: the five report buckets. -/
structure TemplateRefreshReport where
  created : List String
  updated : List String
  unchanged : List String
  skipped_modified : List String
  sidecar : List String
deriving DecidableEq

/-- TemplateRefreshOptions: caller policy flags. -/
structure TemplateRefreshOptions where
  force : Bool
  sidecar : Bool
  dry_run : Bool
deriving DecidableEq

/-- TemplateManifest::find_hash. -/
def TemplateManifest.find_hash (m : TemplateManifest) (kind : TemplateKind)
    (name : String) : Option String :=
  (m.entries.find? (fun e => decide (e.kind = kind ∧ e.name = name))).map ManifestEntry.hash

/-- One serialized manifest entry line (with its trailing newline), as
pushed by save_manifest. -/
def entryLine (e : ManifestEntry) : String :=
  e.kind.as_str ++ ":" ++ e.name ++ ":" ++ e.hash ++ "\n"

/-- The file content written by save_manifest: a version line followed by
one line per entry. -/
def saveManifestContent (m : TemplateManifest) : String :=
  m.entries.foldl (fun content e => content ++ entryLine e) ("version=" ++ m.version ++ "\n")

/-- Parsing of one manifest entry line: splitn(3, colon) then kind
recognition. Any failure here propagates to the whole load, because the
source applies the question-mark operator to each part inside
load_manifest itself. -/
def parseEntryLine (t : String) : Option ManifestEntry :=
  let p1 := breakOnColon t.data
  match p1.2 with
  | none => none
  | some r1 =>
    let p2 := breakOnColon r1
    match p2.2 with
    | none => none
    | some hashChars =>
      match TemplateKind.from_str (String.mk p1.1) with
      | none => none
      | some kind => some ⟨kind, String.mk p2.1, String.mk hashChars⟩

/-- The line loop of load_manifest: trim, skip blank and hash-comment
lines, record the version line, otherwise parse an entry line (whose
failure aborts the whole load with none). -/
def loadLinesAux : List String → String → List ManifestEntry →
    Option (String × List ManifestEntry)
  | [], version, entries => some (version, entries)
  | line :: rest, version, entries =>
    let t := rustTrim line
    if t.data = [] then loadLinesAux rest version entries
    else if t.data.head? = some '#' then loadLinesAux rest version entries
    else
      match stripVersionEq t.data with
      | some v => loadLinesAux rest (String.mk v) entries
      | none =>
        match parseEntryLine t with
        | none => none
        | some e => loadLinesAux rest version (entries ++ [e])

/-- load_manifest applied to file content that was successfully read. -/
def loadManifestFromContent (content : String) : Option TemplateManifest :=
  match loadLinesAux (rustLines content) "" [] with
  | none => none
  | some (version, entries) =>
    if version = "" then none else some ⟨version, entries⟩

/-- A filesystem path, as the list of components joined by PathBuf::join. -/
abbrev FsPath := List String

/-- The filesystem: an association list of files. A later write shadows an
earlier entry of the same path; directories are implicit. -/
abbrev Fs := List (FsPath × String)

/-- Read a file: the most recent entry of the path, if any. -/
def fsRead : Fs → FsPath → Option String
  | [], _ => none
  | (q, c) :: rest, p => if q = p then some c else fsRead rest p

/-- An always-successful fs::write. -/
def fsWrite (fs : Fs) (p : FsPath) (c : String) : Fs := (p, c) :: fs

/-- fs::write with an explicit set of failing paths; none models io::Error. -/
def fsWriteF (wfail : FsPath → Bool) (fs : Fs) (p : FsPath) (c : String) : Option Fs :=
  if wfail p then none else some (fsWrite fs p c)

/-- The failure-free write policy. -/
def noFail : FsPath → Bool := fun _ => false

/-- Path::display, for the strings pushed into the report. -/
def display (p : FsPath) : String := String.intercalate "/" p

/-- Config::baselines_dir / Config::outcomes_dir below the config dir. -/
def kind_dir (cfg : FsPath) : TemplateKind → FsPath
  | .Baselines => cfg ++ ["baselines"]
  | .Outcomes => cfg ++ ["outcomes"]

/-- templates_manifest_path. -/
def templates_manifest_path (cfg : FsPath) : FsPath := cfg ++ ["templates.manifest"]

/-- templates_sidecar_path. -/
def templates_sidecar_path (cfg : FsPath) (kind : TemplateKind) : FsPath :=
  cfg ++ ["templates.new", kind.as_str]

/-- The destination file of an asset: {kind dir}/{name}.toml. -/
def dest_path (cfg : FsPath) (a : TemplateAsset) : FsPath :=
  kind_dir cfg a.kind ++ [a.name ++ ".toml"]

/-- The sidecar file of an asset: templates.new/{kind}/{name}.toml. -/
def sidecar_file_path (cfg : FsPath) (a : TemplateAsset) : FsPath :=
  templates_sidecar_path cfg a.kind ++ [a.name ++ ".toml"]

/-- load_manifest: read the file (a read failure yields none) and parse. -/
def load_manifest (fs : Fs) (p : FsPath) : Option TemplateManifest :=
  (fsRead fs p).bind loadManifestFromContent

/-- save_manifest: serialize and write the whole file in one shot. -/
def save_manifest (wfail : FsPath → Bool) (fs : Fs) (p : FsPath)
    (m : TemplateManifest) : Option Fs :=
  fsWriteF wfail fs p (saveManifestContent m)

/-- Whether a filesystem entry is a direct child file of dir carrying the
toml extension (deeper entries make subdirectories, which read_dir shows
as directories and the scan skips). -/
def isDirectTomlChild (dir : FsPath) (p : FsPath) : Bool :=
  decide (p.take dir.length = dir) &&
    (match p.drop dir.length with
     | [nm] => hasTomlExt nm
     | _ => false)

/-- has_user_templates: the directory scan of src/config.rs. -/
def has_user_templates (fs : Fs) (dir : FsPath) : Bool :=
  fs.any (fun e => isDirectTomlChild dir e.1)

/-- shipped_manifest generalized over digest, version and catalog: one
entry per catalog asset with the digest of its bundled content. -/
def manifest_of (hash : String → String) (pkg_version : String)
    (catalog : List TemplateAsset) : TemplateManifest :=
  ⟨pkg_version, catalog.map (fun a => ⟨a.kind, a.name, hash a.content⟩)⟩

/-- Which of the five report buckets one asset lands in. -/
inductive Bucket where
  | created
  | updated
  | unchanged
  | skippedModified
  | sidecar
deriving DecidableEq

/-- Push one reported path into its bucket. -/
def pushBucket (b : Bucket) (p : String) (r : TemplateRefreshReport) :
    TemplateRefreshReport :=
  match b with
  | .created => { r with created := p :: r.created }
  | .updated => { r with updated := p :: r.updated }
  | .unchanged => { r with unchanged := p :: r.unchanged }
  | .skippedModified => { r with skipped_modified := p :: r.skipped_modified }
  | .sidecar => { r with sidecar := p :: r.sidecar }

/-- The tail of one refresh_templates iteration: the already-up-to-date
check, then the modified-by-user branch (sidecar mirror or skip). The
sidecar directory creation is a no-op here: directories are implicit. -/
def refreshStepTail (wfail : FsPath → Bool) (cfg : FsPath)
    (opts : TemplateRefreshOptions) (a : TemplateAsset)
    (current_hash : Option String) (new_hash : String) (fs : Fs) :
    Except String (Bucket × String) × Fs :=
  let dest_display := display (dest_path cfg a)
  if current_hash = some new_hash then (.ok (.unchanged, dest_display), fs)
  else if opts.sidecar then
    let sp := sidecar_file_path cfg a
    if opts.dry_run then (.ok (.sidecar, display sp), fs)
    else
      match fsWriteF wfail fs sp a.content with
      | none => (.error ("failed to write sidecar " ++ display sp), fs)
      | some fs1 => (.ok (.sidecar, display sp), fs1)
  else (.ok (.skippedModified, dest_display), fs)

/-- One refresh_templates loop iteration for one catalog asset: compute the
digests, then classify and act in the source's priority order (missing,
force, previously-tracked-and-untouched, already current, modified). -/
def refreshStep (hash : String → String) (wfail : FsPath → Bool)
    (prev : Option TemplateManifest) (cfg : FsPath)
    (opts : TemplateRefreshOptions) (a : TemplateAsset) (fs : Fs) :
    Except String (Bucket × String) × Fs :=
  let destP := dest_path cfg a
  let dest_display := display destP
  let new_hash := hash a.content
  let current_content := fsRead fs destP
  let current_hash := current_content.map hash
  let old_hash := prev.bind (fun m => m.find_hash a.kind a.name)
  if current_content = none then
    if opts.dry_run then (.ok (.created, dest_display), fs)
    else
      match fsWriteF wfail fs destP a.content with
      | none => (.error ("failed to write " ++ dest_display), fs)
      | some fs1 => (.ok (.created, dest_display), fs1)
  else if opts.force then
    let wr := if current_hash ≠ some new_hash ∧ opts.dry_run = false
      then fsWriteF wfail fs destP a.content
      else some fs
    match wr with
    | none => (.error ("failed to write " ++ dest_display), fs)
    | some fs1 =>
      if current_hash = some new_hash then (.ok (.unchanged, dest_display), fs1)
      else (.ok (.updated, dest_display), fs1)
  else
    match old_hash, current_hash with
    | some prev_hash, some curr_hash =>
      if prev_hash = curr_hash then
        if curr_hash ≠ new_hash then
          if opts.dry_run then (.ok (.updated, dest_display), fs)
          else
            match fsWriteF wfail fs destP a.content with
            | none => (.error ("failed to write " ++ dest_display), fs)
            | some fs1 => (.ok (.updated, dest_display), fs1)
        else (.ok (.unchanged, dest_display), fs)
      else refreshStepTail wfail cfg opts a current_hash new_hash fs
    | _, _ => refreshStepTail wfail cfg opts a current_hash new_hash fs

/-- The empty report. -/
def emptyReport : TemplateRefreshReport := ⟨[], [], [], [], []⟩

/-- The per-asset loop of refresh_templates: process the catalog in order,
stopping at the first error; on success the buckets list the reported
paths in catalog order. -/
def refreshLoop (hash : String → String) (wfail : FsPath → Bool)
    (prev : Option TemplateManifest) (cfg : FsPath)
    (opts : TemplateRefreshOptions) :
    List TemplateAsset → Fs → Except String TemplateRefreshReport × Fs
  | [], fs => (.ok emptyReport, fs)
  | a :: rest, fs =>
    match refreshStep hash wfail prev cfg opts a fs with
    | (.error e, fs1) => (.error e, fs1)
    | (.ok bp, fs1) =>
      match refreshLoop hash wfail prev cfg opts rest fs1 with
      | (.error e, fs2) => (.error e, fs2)
      | (.ok r, fs2) => (.ok (pushBucket bp.1 bp.2 r), fs2)

/-- refresh_templates over an explicit catalog, package version, config
directory, write-failure set and digest (the source fixes the catalog to
shipped_templates(), the version to the build version and the digest to
SHA-256). The initial create_dir_all calls are no-ops here. -/
def refresh_templates_on (hash : String → String) (wfail : FsPath → Bool)
    (catalog : List TemplateAsset) (pkg_version : String) (cfg : FsPath)
    (opts : TemplateRefreshOptions) (fs : Fs) :
    Except String TemplateRefreshReport × Fs :=
  let shipped := manifest_of hash pkg_version catalog
  let prev := load_manifest fs (templates_manifest_path cfg)
  match refreshLoop hash wfail prev cfg opts catalog fs with
  | (.error e, fs1) => (.error e, fs1)
  | (.ok report, fs1) =>
    if opts.dry_run then (.ok report, fs1)
    else
      match save_manifest wfail fs1 (templates_manifest_path cfg) shipped with
      | none => (.error "failed to write manifest", fs1)
      | some fs2 => (.ok report, fs2)

/-- The inner asset loop of ensure_templates_initialized for one kind:
write each asset whose destination does not yet exist, collecting the
written paths; a write failure aborts with an error. -/
def ensureKindLoop (wfail : FsPath → Bool) (dir : FsPath) :
    List TemplateAsset → Fs → Except String (List String) × Fs
  | [], fs => (.ok [], fs)
  | a :: rest, fs =>
    let p := dir ++ [a.name ++ ".toml"]
    if fsRead fs p ≠ none then ensureKindLoop wfail dir rest fs
    else
      match fsWriteF wfail fs p a.content with
      | none => (.error ("failed to write " ++ display p), fs)
      | some fs1 =>
        match ensureKindLoop wfail dir rest fs1 with
        | (.error e, fs2) => (.error e, fs2)
        | (.ok created, fs2) => (.ok (display p :: created), fs2)

/-- One kind of the ensure_templates_initialized loop: skip the kind
entirely when its user directory already holds a template file, otherwise
seed every catalog asset of the kind. -/
def ensureKindPhase (wfail : FsPath → Bool) (catalog : List TemplateAsset)
    (cfg : FsPath) (kind : TemplateKind) (fs : Fs) :
    Except String (List String) × Fs :=
  let dir := kind_dir cfg kind
  if has_user_templates fs dir then (.ok [], fs)
  else ensureKindLoop wfail dir (catalog.filter (fun a => decide (a.kind = kind))) fs

/-- ensure_templates_initialized over an explicit catalog, version, config
directory, write-failure set and digest: both kinds in order, then a fresh
whole-catalog manifest exactly when anything was created. The initial
create_dir_all calls are no-ops here. -/
def ensure_templates_initialized_on (hash : String → String)
    (wfail : FsPath → Bool) (catalog : List TemplateAsset)
    (pkg_version : String) (cfg : FsPath) (fs : Fs) :
    Except String (List String) × Fs :=
  match ensureKindPhase wfail catalog cfg .Baselines fs with
  | (.error e, fs1) => (.error e, fs1)
  | (.ok c1, fs1) =>
    match ensureKindPhase wfail catalog cfg .Outcomes fs1 with
    | (.error e, fs2) => (.error e, fs2)
    | (.ok c2, fs2) =>
      let created := c1 ++ c2
      if created = [] then (.ok created, fs2)
      else
        match save_manifest wfail fs2 (templates_manifest_path cfg)
            (manifest_of hash pkg_version catalog) with
        | none => (.error "failed to write manifest", fs2)
        | some fs3 => (.ok created, fs3)

/-- Config::bundled_baseline_default. -/
def bundled_baseline_default : String :=
  "# default baseline covariates\n# standard set for NZAVS causal inference studies\n\nvars = [\n  # demographics\n  \"age\",\n  \"born_nz_binary\",\n  \"education_level_coarsen\",\n  \"employed_binary\",\n  \"eth_cat\",\n  \"male_binary\",\n  \"not_heterosexual_binary\",\n  \"parent_binary\",\n  \"partner_binary\",\n  \"religion_identification_level\",\n  \"rural_gch_2018_l\",\n  \"sample_frame_opt_in_binary\",\n  # personality - Big Six\n  \"agreeableness\",\n  \"conscientiousness\",\n  \"extraversion\",\n  \"honesty_humility\",\n  \"neuroticism\",\n  \"openness\",\n  # health/lifestyle\n  \"alcohol_frequency_weekly\",\n  \"alcohol_intensity\",\n  \"hlth_bmi\",\n  \"hlth_disability_binary\",\n  \"hlth_fatigue\",\n  \"kessler_latent_anxiety\",\n  \"kessler_latent_depression\",\n  \"log_hours_children\",\n  \"log_hours_commute\",\n  \"log_hours_exercise\",\n  \"log_hours_housework\",\n  \"log_household_inc\",\n  \"short_form_health\",\n  \"smoker_binary\",\n  # social/psychological\n  \"belong\",\n  \"nz_dep2018\",\n  \"nzsei_13_l\",\n  \"political_conservative\",\n  \"rwa\",\n  \"sdo\",\n  \"support\"\n]\n"

/-- Config::bundled_baseline_minimal. -/
def bundled_baseline_minimal : String :=
  "# minimal baseline covariates\n# core demographics only\n\nvars = [\n  \"age\",\n  \"male_binary\",\n  \"eth_cat\",\n  \"education_level_coarsen\",\n  \"employed_binary\",\n  \"partner_binary\",\n  \"nz_dep2018\"\n]\n"

/-- Config::bundled_baseline_extended. -/
def bundled_baseline_extended : String :=
  "# extended baseline covariates\n# comprehensive set including additional psychological measures\n\nvars = [\n  # demographics\n  \"age\",\n  \"born_nz_binary\",\n  \"education_level_coarsen\",\n  \"employed_binary\",\n  \"eth_cat\",\n  \"male_binary\",\n  \"not_heterosexual_binary\",\n  \"parent_binary\",\n  \"partner_binary\",\n  \"religion_identification_level\",\n  \"rural_gch_2018_l\",\n  \"sample_frame_opt_in_binary\",\n  # personality - Big Six\n  \"agreeableness\",\n  \"conscientiousness\",\n  \"extraversion\",\n  \"honesty_humility\",\n  \"neuroticism\",\n  \"openness\",\n  # health/lifestyle\n  \"alcohol_frequency_weekly\",\n  \"alcohol_intensity\",\n  \"hlth_bmi\",\n  \"hlth_disability_binary\",\n  \"hlth_fatigue\",\n  \"kessler_latent_anxiety\",\n  \"kessler_latent_depression\",\n  \"log_hours_children\",\n  \"log_hours_commute\",\n  \"log_hours_exercise\",\n  \"log_hours_housework\",\n  \"log_household_inc\",\n  \"short_form_health\",\n  \"smoker_binary\",\n  # social/psychological\n  \"belong\",\n  \"nz_dep2018\",\n  \"nzsei_13_l\",\n  \"political_conservative\",\n  \"rwa\",\n  \"sdo\",\n  \"support\",\n  # additional measures\n  \"gratitude\",\n  \"modesty\",\n  \"perfectionism\",\n  \"self_esteem\",\n  \"vengeful_rumination\"\n]\n"

/-- Config::bundled_outcomes_wellbeing. -/
def bundled_outcomes_wellbeing : String :=
  "# wellbeing outcome variables\n# psychological wellbeing measures\n\nvars = [\n  \"life_satisfaction\",\n  \"pwi\",\n  \"self_esteem\",\n  \"meaning_purpose\",\n  \"gratitude\"\n]\n"

/-- Config::bundled_outcomes_health. -/
def bundled_outcomes_health : String :=
  "# health outcome variables\n# physical and mental health measures\n\nvars = [\n  \"short_form_health\",\n  \"kessler_latent_anxiety\",\n  \"kessler_latent_depression\",\n  \"hlth_fatigue\",\n  \"hlth_sleep_hours\"\n]\n"

/-- shipped_templates: the fixed bundled asset catalog of this build. -/
def shipped_templates : List TemplateAsset :=
  [ ⟨.Baselines, "default", bundled_baseline_default⟩,
    ⟨.Baselines, "minimal", bundled_baseline_minimal⟩,
    ⟨.Baselines, "extended", bundled_baseline_extended⟩,
    ⟨.Outcomes, "wellbeing", bundled_outcomes_wellbeing⟩,
    ⟨.Outcomes, "health", bundled_outcomes_health⟩ ]

/-- shipped_manifest, over the abstract digest and build version. -/
def shipped_manifest (hash : String → String) (pkg_version : String) : TemplateManifest :=
  manifest_of hash pkg_version shipped_templates

/-- Config::refresh_templates: the engine applied to the shipped catalog. -/
def refresh_templates (hash : String → String) (wfail : FsPath → Bool)
    (pkg_version : String) (cfg : FsPath) (opts : TemplateRefreshOptions)
    (fs : Fs) : Except String TemplateRefreshReport × Fs :=
  refresh_templates_on hash wfail shipped_templates pkg_version cfg opts fs

/-- Config::ensure_templates_initialized applied to the shipped catalog. -/
def ensure_templates_initialized (hash : String → String) (wfail : FsPath → Bool)
    (pkg_version : String) (cfg : FsPath) (fs : Fs) :
    Except String (List String) × Fs :=
  ensure_templates_initialized_on hash wfail shipped_templates pkg_version cfg fs

/-- The string holds no newline character. -/
def noNl (s : String) : Bool := decide (Char.ofNat 10 ∉ s.data)

/-- The string holds no colon. -/
def noColon (s : String) : Bool := decide (Char.ofNat 58 ∉ s.data)

/-- The string does not end in a character Rust str::trim would strip
(Unicode White_Space). -/
def noTrailWs (s : String) : Bool :=
  match s.data.getLast? with
  | some c => ! rustIsWhitespace c
  | none => true

/-- A manifest entry that survives the line codec: a colon-free,
newline-free name and a newline-free hash without trailing whitespace. -/
def cleanEntry (e : ManifestEntry) : Bool :=
  noColon e.name && noNl e.name && noNl e.hash && noTrailWs e.hash

/-- A version string that survives the line codec: non-empty,
newline-free, without trailing whitespace. -/
def cleanVersion (v : String) : Bool :=
  decide (v ≠ "") && noNl v && noTrailWs v

/-- Total number of paths over the five report buckets. -/
def reportSize (r : TemplateRefreshReport) : Nat :=
  r.created.length + r.updated.length + r.unchanged.length +
    r.skipped_modified.length + r.sidecar.length

/-- The character content of one entry line, without its newline. -/
def entryLineChars (e : ManifestEntry) : List Char :=
  e.kind.as_str.data ++ ':' :: e.name.data ++ ':' :: e.hash.data

/-- The pure classification part of the modified-by-user tail of one
refresh_templates iteration. -/
def classifyTail (cfg : FsPath) (opts : TemplateRefreshOptions) (a : TemplateAsset)
    (current_hash : Option String) (new_hash : String) : Bucket × String :=
  if current_hash = some new_hash then (.unchanged, display (dest_path cfg a))
  else if opts.sidecar then (.sidecar, display (sidecar_file_path cfg a))
  else (.skippedModified, display (dest_path cfg a))

/-- The pure classification computed by one refresh_templates iteration,
as a function of the current file content at the destination. -/
def classifyStep (hash : String → String) (prev : Option TemplateManifest)
    (cfg : FsPath) (opts : TemplateRefreshOptions) (a : TemplateAsset)
    (curr : Option String) : Bucket × String :=
  let dest_display := display (dest_path cfg a)
  let new_hash := hash a.content
  let current_hash := curr.map hash
  let old_hash := prev.bind (fun m => m.find_hash a.kind a.name)
  if curr = none then (.created, dest_display)
  else if opts.force then
    (if current_hash = some new_hash then (.unchanged, dest_display)
     else (.updated, dest_display))
  else
    match old_hash, current_hash with
    | some prev_hash, some curr_hash =>
      if prev_hash = curr_hash then
        (if curr_hash ≠ new_hash then (.updated, dest_display)
         else (.unchanged, dest_display))
      else classifyTail cfg opts a current_hash new_hash
    | _, _ => classifyTail cfg opts a current_hash new_hash

/-- The list of one report bucket. -/
def bucketList (b : Bucket) (r : TemplateRefreshReport) : List String :=
  match b with
  | .created => r.created
  | .updated => r.updated
  | .unchanged => r.unchanged
  | .skippedModified => r.skipped_modified
  | .sidecar => r.sidecar

/-- The destination-file content after one failure-free iteration, as a
function of the content before it. -/
def stepDestContent (hash : String → String) (prev : Option TemplateManifest)
    (cfg : FsPath) (opts : TemplateRefreshOptions) (a : TemplateAsset)
    (curr : Option String) : Option String :=
  if ((classifyStep hash prev cfg opts a curr).1 = Bucket.created ∨
      (classifyStep hash prev cfg opts a curr).1 = Bucket.updated) ∧
      opts.dry_run = false
  then some a.content else curr

/-! ### Codec lemmas -/

theorem string_data_append (a b : String) : (a ++ b).data = a.data ++ b.data := rfl

theorem string_mk_data (l : List Char) : (String.mk l).data = l := rfl

theorem string_mk_eta (s : String) : String.mk s.data = s := rfl

theorem dropWhile_eq_self_of_head (p : Char → Bool) (l : List Char)
    (h : ∀ c, l.head? = some c → p c = false) : l.dropWhile p = l := by
  cases l with
  | nil => rfl
  | cons c t => simp [List.dropWhile_cons, h c rfl]

theorem trimChars_eq_self (l : List Char)
    (h1 : ∀ c, l.head? = some c → rustIsWhitespace c = false)
    (h2 : ∀ c, l.getLast? = some c → rustIsWhitespace c = false) :
    trimChars l = l := by
  unfold trimChars
  rw [dropWhile_eq_self_of_head _ _ h1]
  rw [dropWhile_eq_self_of_head _ _
    (fun c hc => h2 c (by rwa [List.head?_reverse] at hc))]
  exact l.reverse_reverse

theorem rustTrim_mk_eq (l : List Char)
    (h1 : ∀ c, l.head? = some c → rustIsWhitespace c = false)
    (h2 : ∀ c, l.getLast? = some c → rustIsWhitespace c = false) :
    rustTrim (String.mk l) = String.mk l := by
  unfold rustTrim
  rw [string_mk_data, trimChars_eq_self l h1 h2]

theorem linesSplit_append (l1 l2 acc : List Char) (h : '\n' ∉ l1) :
    linesSplit (l1 ++ '\n' :: l2) acc = (acc.reverse ++ l1) :: linesSplit l2 [] := by
  induction l1 generalizing acc with
  | nil => simp [linesSplit]
  | cons c t ih =>
    have hc : c ≠ '\n' := fun e => h (e ▸ List.mem_cons_self c t)
    have hc2 : ¬ (c = '\n') := hc
    simp only [List.cons_append, linesSplit, if_neg hc2, List.append_eq]
    rw [ih _ (fun m => h (List.mem_cons_of_mem _ m))]
    simp

theorem breakOnColon_append (k r : List Char) (h : ':' ∉ k) :
    breakOnColon (k ++ ':' :: r) = (k, some r) := by
  induction k with
  | nil => simp [breakOnColon]
  | cons c t ih =>
    have hc : ¬ (c = ':') := fun e => h (e ▸ List.mem_cons_self c t)
    simp only [List.cons_append, breakOnColon, if_neg hc, List.append_eq]
    rw [ih (fun m => h (List.mem_cons_of_mem _ m))]

theorem entryLine_data (e : ManifestEntry) :
    (entryLine e).data = entryLineChars e ++ ['\n'] := by
  simp [entryLine, entryLineChars, string_data_append]

theorem saveFold_data (es : List ManifestEntry) (init : String) :
    (es.foldl (fun content e => content ++ entryLine e) init).data
      = init.data ++ (es.map (fun e => (entryLine e).data)).flatten := by
  induction es generalizing init with
  | nil => simp
  | cons e t ih => simp [List.foldl_cons, ih, string_data_append]

theorem kind_as_str_no_nl (k : TemplateKind) : '\n' ∉ k.as_str.data := by
  cases k <;> decide

theorem kind_as_str_no_colon (k : TemplateKind) : ':' ∉ k.as_str.data := by
  cases k <;> decide

theorem noNl_spec (s : String) (h : noNl s = true) : '\n' ∉ s.data := by
  simpa [noNl] using h

theorem noColon_spec (s : String) (h : noColon s = true) : ':' ∉ s.data := by
  simpa [noColon] using h

theorem noTrailWs_spec (s : String) (h : noTrailWs s = true) :
    ∀ c, s.data.getLast? = some c → rustIsWhitespace c = false := by
  intro c hc
  unfold noTrailWs at h
  rw [hc] at h
  simpa using h

theorem entryLineChars_no_nl (e : ManifestEntry) (hn : noNl e.name = true)
    (hh : noNl e.hash = true) : '\n' ∉ entryLineChars e := by
  intro hmem
  simp [entryLineChars] at hmem
  rcases hmem with h | h | h
  · exact kind_as_str_no_nl e.kind h
  · exact noNl_spec _ hn h
  · exact noNl_spec _ hh h

theorem linesSplit_entryLines (es : List ManifestEntry)
    (h : ∀ e ∈ es, noNl e.name = true ∧ noNl e.hash = true) :
    linesSplit ((es.map (fun e => (entryLine e).data)).flatten) []
      = es.map entryLineChars := by
  induction es with
  | nil => simp [linesSplit]
  | cons e t ih =>
    have he := h e (List.mem_cons_self e t)
    rw [List.map_cons, List.flatten_cons, entryLine_data]
    rw [List.append_assoc, List.singleton_append]
    rw [linesSplit_append _ _ _ (entryLineChars_no_nl e he.1 he.2)]
    rw [ih (fun x hx => h x (List.mem_cons_of_mem _ hx))]
    simp

theorem entryLineChars_ne_nil (e : ManifestEntry) : entryLineChars e ≠ [] := by
  obtain ⟨k, nm, hs⟩ := e
  cases k <;> simp [entryLineChars, TemplateKind.as_str]

theorem entryLineChars_head (e : ManifestEntry) :
    (entryLineChars e).head? = some 'b' ∨ (entryLineChars e).head? = some 'o' := by
  obtain ⟨k, nm, hs⟩ := e
  cases k
  · exact Or.inl rfl
  · exact Or.inr rfl

theorem entry_getLast_shape (A B C : List Char) :
    (A ++ ':' :: B ++ ':' :: C).getLast? = (':' :: C).getLast? := by
  rw [List.getLast?_append_of_ne_nil _ (by simp)]

theorem entryLineChars_getLast (e : ManifestEntry) (hw : noTrailWs e.hash = true) :
    ∀ c, (entryLineChars e).getLast? = some c → rustIsWhitespace c = false := by
  intro c hc
  unfold entryLineChars at hc
  rw [entry_getLast_shape] at hc
  cases hh : e.hash.data with
  | nil =>
    rw [hh] at hc
    simp at hc
    subst hc
    decide
  | cons d t =>
    rw [hh, List.getLast?_cons_cons] at hc
    have := noTrailWs_spec e.hash hw c
    rw [hh] at this
    exact this hc

theorem cleanEntry_split (e : ManifestEntry) (he : cleanEntry e = true) :
    noColon e.name = true ∧ noNl e.name = true ∧ noNl e.hash = true ∧
      noTrailWs e.hash = true := by
  simpa [cleanEntry, Bool.and_eq_true, and_assoc] using he

theorem breakOnColon_entry (A B C : List Char) (hA : ':' ∉ A) :
    breakOnColon (A ++ ':' :: B ++ ':' :: C) = (A, some (B ++ ':' :: C)) := by
  have hre : A ++ ':' :: B ++ ':' :: C = A ++ (':' :: (B ++ ':' :: C)) := by
    simp
  rw [hre]
  exact breakOnColon_append A (B ++ ':' :: C) hA

theorem parseEntryLine_chars (e : ManifestEntry) (hnc : noColon e.name = true) :
    parseEntryLine (String.mk (entryLineChars e)) = some e := by
  obtain ⟨k, nm, hs⟩ := e
  have hnc2 : ':' ∉ nm.data := noColon_spec _ hnc
  unfold parseEntryLine entryLineChars
  rw [string_mk_data]
  dsimp only
  cases k <;>
    (rw [breakOnColon_entry _ nm.data hs.data (kind_as_str_no_colon _)]
     dsimp only
     rw [breakOnColon_append nm.data hs.data hnc2]
     rfl)

theorem loadLinesAux_entry_cons (e : ManifestEntry) (he : cleanEntry e = true)
    (rest : List String) (ver : String) (acc : List ManifestEntry) :
    loadLinesAux (String.mk (entryLineChars e) :: rest) ver acc
      = loadLinesAux rest ver (acc ++ [e]) := by
  have hc := cleanEntry_split e he
  have hhead : ∀ c, (entryLineChars e).head? = some c →
      rustIsWhitespace c = false := by
    intro c h
    rcases entryLineChars_head e with hb | hb <;>
      (rw [hb] at h; injection h with h; subst h; decide)
  have htrim : rustTrim (String.mk (entryLineChars e)) = String.mk (entryLineChars e) :=
    rustTrim_mk_eq _ hhead (entryLineChars_getLast e hc.2.2.2)
  have hnotver : stripVersionEq (entryLineChars e) = none := by
    obtain ⟨k, nm, hs⟩ := e
    cases k <;> rfl
  have hhash : ¬ ((entryLineChars e).head? = some '#') := by
    intro h
    rcases entryLineChars_head e with hb | hb <;> (rw [hb] at h; exact absurd h (by decide))
  simp only [loadLinesAux, htrim, string_mk_data]
  rw [if_neg (entryLineChars_ne_nil e), if_neg hhash, hnotver,
    parseEntryLine_chars e hc.1]

theorem loadLinesAux_entries (es : List ManifestEntry)
    (h : ∀ e ∈ es, cleanEntry e = true) :
    ∀ (acc : List ManifestEntry) (ver : String),
    loadLinesAux (es.map (fun e => String.mk (entryLineChars e))) ver acc
      = some (ver, acc ++ es) := by
  induction es with
  | nil => intro acc ver; simp [loadLinesAux]
  | cons e t ih =>
    intro acc ver
    rw [List.map_cons, loadLinesAux_entry_cons e (h e (List.mem_cons_self e t))]
    rw [ih (fun x hx => h x (List.mem_cons_of_mem _ hx))]
    simp

theorem cleanVersion_split (v : String) (hv : cleanVersion v = true) :
    v ≠ "" ∧ noNl v = true ∧ noTrailWs v = true := by
  simpa [cleanVersion, Bool.and_eq_true, and_assoc] using hv

theorem string_ne_empty_data (v : String) (h : v ≠ "") : v.data ≠ [] := by
  intro hd
  exact h (by cases v; simp_all)

theorem loadLinesAux_version_cons (v : String) (hv : cleanVersion v = true)
    (rest : List String) (ver : String) (acc : List ManifestEntry) :
    loadLinesAux (String.mk ("version=".data ++ v.data) :: rest) ver acc
      = loadLinesAux rest v acc := by
  have hc := cleanVersion_split v hv
  have hdne := string_ne_empty_data v hc.1
  have hhead : ∀ c, ("version=".data ++ v.data).head? = some c →
      rustIsWhitespace c = false := by
    intro c h
    have : ("version=".data ++ v.data).head? = some 'v' := rfl
    rw [this] at h
    injection h with h
    subst h
    decide
  have hlast : ∀ c, ("version=".data ++ v.data).getLast? = some c →
      rustIsWhitespace c = false := by
    intro c h
    rw [List.getLast?_append_of_ne_nil _ hdne] at h
    exact noTrailWs_spec v hc.2.2 c h
  have htrim : rustTrim (String.mk ("version=".data ++ v.data))
      = String.mk ("version=".data ++ v.data) :=
    rustTrim_mk_eq _ hhead hlast
  have hne : ¬ (("version=".data ++ v.data) = ([] : List Char)) := by simp
  have hnothash : ¬ (("version=".data ++ v.data).head? = some '#') := by
    intro h
    have : ("version=".data ++ v.data).head? = some 'v' := rfl
    rw [this] at h
    exact absurd h (by decide)
  have hstrip : stripVersionEq ("version=".data ++ v.data) = some v.data := rfl
  simp only [loadLinesAux, htrim, string_mk_data]
  rw [if_neg hne, if_neg hnothash, hstrip, string_mk_eta]

theorem saveManifestContent_data (v : String) (es : List ManifestEntry) :
    (saveManifestContent ⟨v, es⟩).data
      = ("version=".data ++ v.data) ++
          '\n' :: (es.map (fun e => (entryLine e).data)).flatten := by
  unfold saveManifestContent
  rw [saveFold_data]
  simp [string_data_append]

/-- save_manifest then load_manifest round-trips a manifest whose version
and fields survive the line codec. -/
theorem load_saved_manifest (m : TemplateManifest)
    (hv : cleanVersion m.version = true)
    (he : ∀ e ∈ m.entries, cleanEntry e = true) :
    loadManifestFromContent (saveManifestContent m) = some m := by
  obtain ⟨v, es⟩ := m
  have hc := cleanVersion_split v hv
  have hlines : rustLines (saveManifestContent ⟨v, es⟩)
      = String.mk ("version=".data ++ v.data)
          :: es.map (fun e => String.mk (entryLineChars e)) := by
    unfold rustLines
    rw [saveManifestContent_data]
    rw [linesSplit_append _ _ _ (by
      intro hmem
      rcases List.mem_append.1 hmem with h1 | h2
      · exact absurd h1 (by decide)
      · exact noNl_spec v hc.2.1 h2)]
    rw [linesSplit_entryLines es (fun e hx =>
      ⟨(cleanEntry_split e (he e hx)).2.1, (cleanEntry_split e (he e hx)).2.2.1⟩)]
    simp
  unfold loadManifestFromContent
  rw [hlines, loadLinesAux_version_cons v hv, loadLinesAux_entries es he]
  simp [hc.1]

/-! ### Filesystem and path lemmas -/

theorem fsRead_fsWrite (fs : Fs) (p : FsPath) (c : String) (q : FsPath) :
    fsRead (fsWrite fs p c) q = if p = q then some c else fsRead fs q := rfl

theorem fsRead_fsWrite_ne (fs : Fs) (p : FsPath) (c : String) (q : FsPath)
    (h : p ≠ q) : fsRead (fsWrite fs p c) q = fsRead fs q := by
  rw [fsRead_fsWrite, if_neg h]

theorem fsWriteF_noFail (fs : Fs) (p : FsPath) (c : String) :
    fsWriteF noFail fs p c = some (fsWrite fs p c) := rfl

theorem dest_path_length (cfg : FsPath) (a : TemplateAsset) :
    (dest_path cfg a).length = cfg.length + 2 := by
  cases hk : a.kind <;> simp [dest_path, kind_dir, hk]

theorem sidecar_path_length (cfg : FsPath) (a : TemplateAsset) :
    (sidecar_file_path cfg a).length = cfg.length + 3 := by
  cases hk : a.kind <;> simp [sidecar_file_path, templates_sidecar_path, hk]

theorem manifest_path_length (cfg : FsPath) :
    (templates_manifest_path cfg).length = cfg.length + 1 := by
  simp [templates_manifest_path]

theorem dest_ne_sidecar (cfg : FsPath) (a b : TemplateAsset) :
    dest_path cfg a ≠ sidecar_file_path cfg b := by
  intro h
  have := congrArg List.length h
  rw [dest_path_length, sidecar_path_length] at this
  omega

theorem manifest_ne_dest (cfg : FsPath) (a : TemplateAsset) :
    templates_manifest_path cfg ≠ dest_path cfg a := by
  intro h
  have := congrArg List.length h
  rw [dest_path_length, manifest_path_length] at this
  omega

theorem manifest_ne_sidecar (cfg : FsPath) (a : TemplateAsset) :
    templates_manifest_path cfg ≠ sidecar_file_path cfg a := by
  intro h
  have := congrArg List.length h
  rw [sidecar_path_length, manifest_path_length] at this
  omega

/-! ### Step characterization -/

theorem ite_none_some_eq {C : Prop} [Decidable C] {fs fs1 : Fs}
    (h : (if C then none else some fs) = some fs1) : fs1 = fs := by
  by_cases hC : C
  · rw [if_pos hC] at h; cases h
  · rw [if_neg hC] at h; exact (Option.some_inj.1 h).symm

theorem ite_some_some_eq {C : Prop} [Decidable C] {x y z : Fs}
    (h : (if C then some x else some y) = some z) : z = x ∨ z = y := by
  by_cases hC : C
  · rw [if_pos hC] at h; exact Or.inl (Option.some_inj.1 h).symm
  · rw [if_neg hC] at h; exact Or.inr (Option.some_inj.1 h).symm

theorem refreshStep_fs_cases (hash : String → String) (wfail : FsPath → Bool)
    (prev : Option TemplateManifest) (cfg : FsPath) (opts : TemplateRefreshOptions)
    (a : TemplateAsset) (fs : Fs) :
    (refreshStep hash wfail prev cfg opts a fs).2 = fs ∨
    (refreshStep hash wfail prev cfg opts a fs).2
      = fsWrite fs (dest_path cfg a) a.content ∨
    (refreshStep hash wfail prev cfg opts a fs).2
      = fsWrite fs (sidecar_file_path cfg a) a.content := by
  by_cases hw : wfail (dest_path cfg a) = true <;>
  by_cases hw2 : wfail (sidecar_file_path cfg a) = true <;>
    (simp only [Bool.not_eq_true] at *
     simp [refreshStep, refreshStepTail, fsWriteF, hw, hw2]
     repeat' split)
  all_goals
    try (first
      | exact Or.inl rfl
      | exact Or.inr (Or.inl rfl)
      | exact Or.inr (Or.inr rfl)
      | simp)
  all_goals try (exact Or.inl (ite_none_some_eq (by assumption)))
  all_goals
    exact (ite_some_some_eq (by assumption)).elim
      (fun hfs => Or.inr (Or.inl hfs)) (fun hfs => Or.inl hfs)

theorem refreshStep_fs_other (hash : String → String) (wfail : FsPath → Bool)
    (prev : Option TemplateManifest) (cfg : FsPath) (opts : TemplateRefreshOptions)
    (a : TemplateAsset) (fs : Fs) (q : FsPath)
    (h1 : q ≠ dest_path cfg a) (h2 : q ≠ sidecar_file_path cfg a) :
    fsRead (refreshStep hash wfail prev cfg opts a fs).2 q = fsRead fs q := by
  rcases refreshStep_fs_cases hash wfail prev cfg opts a fs with h | h | h <;> rw [h]
  · exact fsRead_fsWrite_ne _ _ _ _ (Ne.symm h1)
  · exact fsRead_fsWrite_ne _ _ _ _ (Ne.symm h2)

theorem refreshStep_dry (hash : String → String) (wfail : FsPath → Bool)
    (prev : Option TemplateManifest) (cfg : FsPath) (f s : Bool)
    (a : TemplateAsset) (fs : Fs) :
    refreshStep hash wfail prev cfg ⟨f, s, true⟩ a fs
      = (.ok (classifyStep hash prev cfg ⟨f, s, true⟩ a
          (fsRead fs (dest_path cfg a))), fs) := by
  simp only [refreshStep, refreshStepTail, classifyStep, classifyTail]
  repeat' split <;> first | rfl | simp_all | (split_ifs at * <;> simp_all)

theorem refreshStep_noFail (hash : String → String)
    (prev : Option TemplateManifest) (cfg : FsPath) (opts : TemplateRefreshOptions)
    (a : TemplateAsset) (fs : Fs) :
    (refreshStep hash noFail prev cfg opts a fs).1
      = .ok (classifyStep hash prev cfg opts a (fsRead fs (dest_path cfg a))) := by
  simp only [refreshStep, refreshStepTail, classifyStep, classifyTail,
    fsWriteF, noFail, Bool.false_eq_true, if_false]
  repeat' split <;> first | rfl | simp_all | (split_ifs at * <;> simp_all)

theorem refreshStep_noFail_dest (hash : String → String)
    (prev : Option TemplateManifest) (cfg : FsPath) (opts : TemplateRefreshOptions)
    (a : TemplateAsset) (fs : Fs) :
    fsRead (refreshStep hash noFail prev cfg opts a fs).2 (dest_path cfg a)
      = stepDestContent hash prev cfg opts a (fsRead fs (dest_path cfg a)) := by
  have hds := dest_ne_sidecar cfg a a
  simp only [refreshStep, refreshStepTail, stepDestContent, classifyStep,
    classifyTail, fsWriteF, noFail, Bool.false_eq_true, if_false]
  repeat' split
  all_goals try rfl
  all_goals try exact fun h => absurd h.symm hds
  all_goals try (simp [fsRead_fsWrite]; done)
  all_goals try (rw [fsRead_fsWrite_ne _ _ _ _ (fun h => hds h.symm)]; simp_all; done)
  all_goals try (simp_all [fsRead_fsWrite, fsRead_fsWrite_ne]; done)
  all_goals try aesop
  all_goals
    ((try (split_ifs at *)) <;>
      first
        | (simp [fsRead_fsWrite]; done)
        | exact fun h => absurd h.symm hds
        | (simp only [fsRead_fsWrite]
           rw [if_neg (fun h => hds h.symm)]
           first | rfl | assumption | simp_all)
        | simp_all [fsRead_fsWrite]
        | aesop)
  all_goals exact fun h => absurd h.symm hds

/-! ### Manifest lookup and bucket lemmas -/

theorem find_hash_manifest_of (hash : String → String) (v : String)
    (catalog : List TemplateAsset) (a : TemplateAsset) (ha : a ∈ catalog)
    (hnd : (catalog.map (fun x => (x.kind, x.name))).Nodup) :
    (manifest_of hash v catalog).find_hash a.kind a.name
      = some (hash a.content) := by
  induction catalog with
  | nil => cases ha
  | cons b rest ih =>
    simp only [List.map_cons, List.nodup_cons] at hnd
    simp only [manifest_of, TemplateManifest.find_hash, List.map_cons]
    by_cases hkey : b.kind = a.kind ∧ b.name = a.name
    · rw [List.find?_cons_of_pos _ (by simpa using hkey)]
      rcases List.mem_cons.1 ha with rfl | hmem
      · rfl
      · exfalso
        exact hnd.1 (by
          rw [hkey.1, hkey.2]
          exact List.mem_map.2 ⟨a, hmem, rfl⟩)
    · rw [List.find?_cons_of_neg _ (by simpa using hkey)]
      rcases List.mem_cons.1 ha with rfl | hmem
      · exact absurd ⟨rfl, rfl⟩ hkey
      · have := ih hmem hnd.2
        simpa [manifest_of, TemplateManifest.find_hash] using this

theorem pushBucket_size (b : Bucket) (p : String) (r : TemplateRefreshReport) :
    reportSize (pushBucket b p r) = reportSize r + 1 := by
  cases b <;> simp [pushBucket, reportSize] <;> omega

theorem mem_bucketList_push_self (b : Bucket) (p : String)
    (r : TemplateRefreshReport) : p ∈ bucketList b (pushBucket b p r) := by
  cases b <;> simp [pushBucket, bucketList]

theorem mem_bucketList_push_of_mem (b c : Bucket) (p q : String)
    (r : TemplateRefreshReport) (h : q ∈ bucketList c r) :
    q ∈ bucketList c (pushBucket b p r) := by
  cases b <;> cases c <;> simp [pushBucket, bucketList] at h ⊢ <;> tauto

theorem bucketList_push_cases (b c : Bucket) (p q : String)
    (r : TemplateRefreshReport) (h : q ∈ bucketList c (pushBucket b p r)) :
    (c = b ∧ q = p) ∨ q ∈ bucketList c r := by
  cases b <;> cases c <;> simp [pushBucket, bucketList] at h ⊢ <;> tauto

theorem classify_dry_irrel (hash : String → String)
    (prev : Option TemplateManifest) (cfg : FsPath) (f s d1 d2 : Bool)
    (a : TemplateAsset) (curr : Option String) :
    classifyStep hash prev cfg ⟨f, s, d1⟩ a curr
      = classifyStep hash prev cfg ⟨f, s, d2⟩ a curr := rfl

/-! ### Loop lemmas -/

theorem refreshLoop_fs_other (hash : String → String) (wfail : FsPath → Bool)
    (prev : Option TemplateManifest) (cfg : FsPath)
    (opts : TemplateRefreshOptions) (assets : List TemplateAsset) (fs : Fs)
    (q : FsPath)
    (h : ∀ c ∈ assets, q ≠ dest_path cfg c ∧ q ≠ sidecar_file_path cfg c) :
    fsRead (refreshLoop hash wfail prev cfg opts assets fs).2 q = fsRead fs q := by
  induction assets generalizing fs with
  | nil => rfl
  | cons a rest ih =>
    have ha := h a (List.mem_cons_self a rest)
    simp only [refreshLoop]
    cases hstep : refreshStep hash wfail prev cfg opts a fs with
    | mk r1 fs1 =>
      have hfs1 : fsRead fs1 q = fsRead fs q := by
        have hh := refreshStep_fs_other hash wfail prev cfg opts a fs q ha.1 ha.2
        rw [hstep] at hh
        exact hh
      cases r1 with
      | error e => simpa using hfs1
      | ok bp =>
        dsimp only
        have hrest := ih fs1 (fun c hc => h c (List.mem_cons_of_mem _ hc))
        cases hloop : refreshLoop hash wfail prev cfg opts rest fs1 with
        | mk r2 fs2 =>
          rw [hloop] at hrest
          cases r2 <;> exact hrest.trans hfs1

theorem refreshLoop_dry (hash : String → String) (wfail : FsPath → Bool)
    (prev : Option TemplateManifest) (cfg : FsPath) (f s : Bool)
    (assets : List TemplateAsset) (fs : Fs) :
    (refreshLoop hash wfail prev cfg ⟨f, s, true⟩ assets fs).2 = fs := by
  induction assets generalizing fs with
  | nil => rfl
  | cons a rest ih =>
    simp only [refreshLoop]
    rw [refreshStep_dry]
    dsimp only
    cases hloop : refreshLoop hash wfail prev cfg ⟨f, s, true⟩ rest fs with
    | mk r2 fs2 =>
      have hh := ih fs
      rw [hloop] at hh
      cases r2 <;> exact hh

theorem refreshLoop_noFail_ok (hash : String → String)
    (prev : Option TemplateManifest) (cfg : FsPath)
    (opts : TemplateRefreshOptions) (assets : List TemplateAsset) (fs : Fs) :
    ∃ r, (refreshLoop hash noFail prev cfg opts assets fs).1 = .ok r := by
  induction assets generalizing fs with
  | nil => exact ⟨emptyReport, rfl⟩
  | cons a rest ih =>
    simp only [refreshLoop]
    cases hstep : refreshStep hash noFail prev cfg opts a fs with
    | mk r1 fs1 =>
      have hok := refreshStep_noFail hash prev cfg opts a fs
      rw [hstep] at hok
      cases r1 with
      | error e => simp at hok
      | ok bp =>
        dsimp only
        obtain ⟨r, hr⟩ := ih fs1
        cases hloop : refreshLoop hash noFail prev cfg opts rest fs1 with
        | mk r2 fs2 =>
          rw [hloop] at hr
          cases r2 with
          | error e => simp at hr
          | ok rr => exact ⟨_, rfl⟩

theorem refreshLoop_size (hash : String → String) (wfail : FsPath → Bool)
    (prev : Option TemplateManifest) (cfg : FsPath)
    (opts : TemplateRefreshOptions) (assets : List TemplateAsset) (fs : Fs)
    (r : TemplateRefreshReport)
    (hok : (refreshLoop hash wfail prev cfg opts assets fs).1 = .ok r) :
    reportSize r = assets.length := by
  induction assets generalizing fs r with
  | nil =>
    simp only [refreshLoop] at hok
    cases hok
    rfl
  | cons a rest ih =>
    simp only [refreshLoop] at hok
    cases hstep : refreshStep hash wfail prev cfg opts a fs with
    | mk r1 fs1 =>
      rw [hstep] at hok
      cases r1 with
      | error e => simp at hok
      | ok bp =>
        simp only at hok
        cases hloop : refreshLoop hash wfail prev cfg opts rest fs1 with
        | mk r2 fs2 =>
          rw [hloop] at hok
          cases r2 with
          | error e => simp at hok
          | ok rr =>
            simp only at hok
            cases hok
            rw [pushBucket_size, ih fs1 rr (by rw [hloop])]
            simp

theorem classifyTail_snd_cases (cfg : FsPath) (opts : TemplateRefreshOptions)
    (a : TemplateAsset) (current_hash : Option String) (new_hash : String) :
    (classifyTail cfg opts a current_hash new_hash).1 = Bucket.sidecar ∨
    (classifyTail cfg opts a current_hash new_hash).2
      = display (dest_path cfg a) := by
  unfold classifyTail
  by_cases h1 : current_hash = some new_hash
  · rw [if_pos h1]
    exact Or.inr rfl
  · rw [if_neg h1]
    by_cases h2 : opts.sidecar = true
    · rw [if_pos h2]
      exact Or.inl rfl
    · rw [if_neg h2]
      exact Or.inr rfl

theorem classify_snd_cases (hash : String → String)
    (prev : Option TemplateManifest) (cfg : FsPath)
    (opts : TemplateRefreshOptions) (a : TemplateAsset) (curr : Option String) :
    (classifyStep hash prev cfg opts a curr).1 = Bucket.sidecar ∨
    (classifyStep hash prev cfg opts a curr).2 = display (dest_path cfg a) := by
  unfold classifyStep
  by_cases h0 : curr = none
  · rw [if_pos h0]
    exact Or.inr rfl
  · rw [if_neg h0]
    by_cases hf : opts.force = true
    · rw [if_pos hf]
      by_cases hcn : curr.map hash = some (hash a.content)
      · rw [if_pos hcn]
        exact Or.inr rfl
      · rw [if_neg hcn]
        exact Or.inr rfl
    · rw [if_neg hf]
      rcases hoh : prev.bind (fun m => m.find_hash a.kind a.name) with _ | ph <;>
        rcases hch : curr.map hash with _ | ch <;>
        simp only [hoh, hch]
      · exact classifyTail_snd_cases cfg opts a _ _
      · exact classifyTail_snd_cases cfg opts a _ _
      · exact classifyTail_snd_cases cfg opts a _ _
      · by_cases hpc : ph = ch
        · rw [if_pos hpc]
          by_cases hcn : ch ≠ hash a.content
          · rw [if_pos hcn]
            exact Or.inr rfl
          · rw [if_neg hcn]
            exact Or.inr rfl
        · rw [if_neg hpc]
          exact classifyTail_snd_cases cfg opts a _ _

theorem classify_snd_unchanged (hash : String → String)
    (prev : Option TemplateManifest) (cfg : FsPath)
    (opts : TemplateRefreshOptions) (a : TemplateAsset) (curr : Option String)
    (h : (classifyStep hash prev cfg opts a curr).1 = .unchanged) :
    (classifyStep hash prev cfg opts a curr).2 = display (dest_path cfg a) := by
  rcases classify_snd_cases hash prev cfg opts a curr with h1 | h2
  · cases (h.symm.trans h1)
  · exact h2

theorem refreshLoop_tracked (hash : String → String)
    (prev : Option TemplateManifest) (cfg : FsPath)
    (opts : TemplateRefreshOptions) (assets : List TemplateAsset) (fs : Fs)
    (a : TemplateAsset) (ha : a ∈ assets)
    (hnd : (assets.map (dest_path cfg)).Nodup) (r : TemplateRefreshReport)
    (hok : (refreshLoop hash noFail prev cfg opts assets fs).1 = .ok r) :
    (classifyStep hash prev cfg opts a (fsRead fs (dest_path cfg a))).2
        ∈ bucketList
            (classifyStep hash prev cfg opts a (fsRead fs (dest_path cfg a))).1 r ∧
    fsRead (refreshLoop hash noFail prev cfg opts assets fs).2 (dest_path cfg a)
        = stepDestContent hash prev cfg opts a (fsRead fs (dest_path cfg a)) := by
  induction assets generalizing fs r with
  | nil => cases ha
  | cons b rest ih =>
    simp only [refreshLoop] at hok ⊢
    cases hstep : refreshStep hash noFail prev cfg opts b fs with
    | mk r1 fs1 =>
      rw [hstep] at hok
      have hstep1 := refreshStep_noFail hash prev cfg opts b fs
      rw [hstep] at hstep1
      cases r1 with
      | error e => simp at hstep1
      | ok bp =>
        simp only at hstep1
        cases hstep1
        dsimp only at hok ⊢
        cases hloop : refreshLoop hash noFail prev cfg opts rest fs1 with
        | mk r2 fs2 =>
          rw [hloop] at hok
          cases r2 with
          | error e => simp at hok
          | ok rr =>
            simp only at hok
            cases hok
            rw [List.map_cons, List.nodup_cons] at hnd
            rcases List.mem_cons.1 ha with rfl | hmem
            · constructor
              · exact mem_bucketList_push_self _ _ _
              · have hpres : fsRead fs2 (dest_path cfg a)
                    = fsRead fs1 (dest_path cfg a) := by
                  have hh := refreshLoop_fs_other hash noFail prev cfg opts rest
                    fs1 (dest_path cfg a) (fun c hc =>
                      ⟨fun he => hnd.1 (he ▸ List.mem_map.2 ⟨c, hc, rfl⟩),
                       dest_ne_sidecar cfg a c⟩)
                  rw [hloop] at hh
                  exact hh
                have hd := refreshStep_noFail_dest hash prev cfg opts a fs
                rw [hstep] at hd
                exact hpres.trans hd
            · have hne : dest_path cfg a ≠ dest_path cfg b := by
                intro he
                exact hnd.1 (he ▸ List.mem_map.2 ⟨a, hmem, rfl⟩)
              have hread1 : fsRead fs1 (dest_path cfg a)
                  = fsRead fs (dest_path cfg a) := by
                have hh := refreshStep_fs_other hash noFail prev cfg opts b fs
                  (dest_path cfg a) hne (dest_ne_sidecar cfg a b)
                rw [hstep] at hh
                exact hh
              have IH := ih fs1 hmem hnd.2 rr (by rw [hloop])
              rw [hloop, hread1] at IH
              exact ⟨mem_bucketList_push_of_mem _ _ _ _ _ IH.1, IH.2⟩

theorem refreshLoop_unchanged_sound (hash : String → String)
    (prev : Option TemplateManifest) (cfg : FsPath)
    (opts : TemplateRefreshOptions) (assets : List TemplateAsset) (fs : Fs)
    (r : TemplateRefreshReport) (q : String)
    (hnd : (assets.map (dest_path cfg)).Nodup)
    (hok : (refreshLoop hash noFail prev cfg opts assets fs).1 = .ok r)
    (hq : q ∈ r.unchanged) :
    ∃ c, c ∈ assets ∧ q = display (dest_path cfg c) ∧
      (classifyStep hash prev cfg opts c (fsRead fs (dest_path cfg c))).1
        = .unchanged := by
  induction assets generalizing fs r with
  | nil =>
    simp only [refreshLoop] at hok
    cases hok
    cases hq
  | cons b rest ih =>
    simp only [refreshLoop] at hok
    cases hstep : refreshStep hash noFail prev cfg opts b fs with
    | mk r1 fs1 =>
      rw [hstep] at hok
      have hstep1 := refreshStep_noFail hash prev cfg opts b fs
      rw [hstep] at hstep1
      cases r1 with
      | error e => simp at hstep1
      | ok bp =>
        simp only at hstep1
        cases hstep1
        dsimp only at hok
        cases hloop : refreshLoop hash noFail prev cfg opts rest fs1 with
        | mk r2 fs2 =>
          rw [hloop] at hok
          cases r2 with
          | error e => simp at hok
          | ok rr =>
            simp only at hok
            cases hok
            rw [List.map_cons, List.nodup_cons] at hnd
            have hq2 := bucketList_push_cases _ Bucket.unchanged _ q rr
              (by simpa [bucketList] using hq)
            rcases hq2 with ⟨hb, rfl⟩ | hmem2
            · refine ⟨b, List.mem_cons_self b rest, ?_, by rw [← hb]⟩
              exact classify_snd_unchanged hash prev cfg opts b _ (by rw [← hb])
            · obtain ⟨c, hc, hq3, hcl⟩ := ih fs1 rr hnd.2 (by rw [hloop]) hmem2
              have hread1 : fsRead fs1 (dest_path cfg c)
                  = fsRead fs (dest_path cfg c) := by
                have hne : dest_path cfg c ≠ dest_path cfg b := by
                  intro he
                  exact hnd.1 (he ▸ List.mem_map.2 ⟨c, hc, rfl⟩)
                have hh := refreshStep_fs_other hash noFail prev cfg opts b fs
                  (dest_path cfg c) hne (dest_ne_sidecar cfg c b)
                rw [hstep] at hh
                exact hh
              rw [hread1] at hcl
              exact ⟨c, List.mem_cons_of_mem _ hc, hq3, hcl⟩

theorem refreshLoop_class_eq (hash : String → String)
    (prev : Option TemplateManifest) (cfg : FsPath) (f s : Bool)
    (assets : List TemplateAsset) (fs1 fs2 : Fs)
    (hagree : ∀ c ∈ assets,
      fsRead fs1 (dest_path cfg c) = fsRead fs2 (dest_path cfg c))
    (hnd : (assets.map (dest_path cfg)).Nodup) :
    (refreshLoop hash noFail prev cfg ⟨f, s, true⟩ assets fs1).1
      = (refreshLoop hash noFail prev cfg ⟨f, s, false⟩ assets fs2).1 := by
  induction assets generalizing fs1 fs2 with
  | nil => rfl
  | cons b rest ih =>
    simp only [refreshLoop]
    rw [refreshStep_dry]
    dsimp only
    cases hstep : refreshStep hash noFail prev cfg ⟨f, s, false⟩ b fs2 with
    | mk r1 fs2x =>
      have hs1 := refreshStep_noFail hash prev cfg ⟨f, s, false⟩ b fs2
      rw [hstep] at hs1
      cases r1 with
      | error e => simp at hs1
      | ok bp =>
        simp only at hs1
        cases hs1
        dsimp only
        rw [List.map_cons, List.nodup_cons] at hnd
        have hb := hagree b (List.mem_cons_self b rest)
        have hagree2 : ∀ c ∈ rest,
            fsRead fs1 (dest_path cfg c) = fsRead fs2x (dest_path cfg c) := by
          intro c hc
          have hpres := refreshStep_fs_other hash noFail prev cfg ⟨f, s, false⟩
            b fs2 (dest_path cfg c)
            (fun he => hnd.1 (he ▸ List.mem_map.2 ⟨c, hc, rfl⟩))
            (dest_ne_sidecar cfg c b)
          rw [hstep] at hpres
          exact (hagree c (List.mem_cons_of_mem _ hc)).trans hpres.symm
        have hrec := ih fs1 fs2x hagree2 hnd.2
        cases hl1 : refreshLoop hash noFail prev cfg ⟨f, s, true⟩ rest fs1 with
        | mk ra fsa =>
          cases hl2 : refreshLoop hash noFail prev cfg ⟨f, s, false⟩ rest fs2x with
          | mk rb fsb =>
            rw [hl1, hl2] at hrec
            simp only at hrec
            rw [hb]
            cases ra with
            | error e =>
              cases rb with
              | error e2 =>
                cases hrec
                rfl
              | ok rr => cases hrec
            | ok rr =>
              cases rb with
              | error e2 => cases hrec
              | ok rr2 =>
                cases hrec
                rfl

theorem refresh_on_dry_fs (hash : String → String) (wfail : FsPath → Bool)
    (catalog : List TemplateAsset) (v : String) (cfg : FsPath) (f s : Bool)
    (fs : Fs) :
    (refresh_templates_on hash wfail catalog v cfg ⟨f, s, true⟩ fs).2 = fs := by
  unfold refresh_templates_on
  dsimp only
  cases hloop : refreshLoop hash wfail
      (load_manifest fs (templates_manifest_path cfg)) cfg ⟨f, s, true⟩
      catalog fs with
  | mk r1 fsx =>
    have hd := refreshLoop_dry hash wfail
      (load_manifest fs (templates_manifest_path cfg)) cfg f s catalog fs
    rw [hloop] at hd
    cases r1 <;> exact hd

theorem refresh_on_noFail_parts (hash : String → String)
    (catalog : List TemplateAsset) (v : String) (cfg : FsPath)
    (opts : TemplateRefreshOptions) (fs : Fs) (hdry : opts.dry_run = false) :
    ∃ r fsl,
      refreshLoop hash noFail (load_manifest fs (templates_manifest_path cfg))
        cfg opts catalog fs = (.ok r, fsl) ∧
      refresh_templates_on hash noFail catalog v cfg opts fs
        = (.ok r, fsWrite fsl (templates_manifest_path cfg)
            (saveManifestContent (manifest_of hash v catalog))) := by
  obtain ⟨r, hr⟩ := refreshLoop_noFail_ok hash
    (load_manifest fs (templates_manifest_path cfg)) cfg opts catalog fs
  cases hloop : refreshLoop hash noFail
      (load_manifest fs (templates_manifest_path cfg)) cfg opts catalog fs with
  | mk r1 fsl =>
    rw [hloop] at hr
    simp only at hr
    cases hr
    refine ⟨r, fsl, rfl, ?_⟩
    unfold refresh_templates_on
    dsimp only
    rw [hloop, hdry]
    rfl

theorem refresh_on_fst (hash : String → String) (catalog : List TemplateAsset)
    (v : String) (cfg : FsPath) (opts : TemplateRefreshOptions) (fs : Fs) :
    (refresh_templates_on hash noFail catalog v cfg opts fs).1
      = (refreshLoop hash noFail (load_manifest fs (templates_manifest_path cfg))
          cfg opts catalog fs).1 := by
  by_cases hd : opts.dry_run = true
  · unfold refresh_templates_on
    dsimp only
    cases hloop : refreshLoop hash noFail
        (load_manifest fs (templates_manifest_path cfg)) cfg opts catalog fs with
    | mk r1 fsl =>
      cases r1 with
      | error e => rfl
      | ok rr => simp [hd]
  · rw [Bool.not_eq_true] at hd
    obtain ⟨r, fsl, hloop, hres⟩ := refresh_on_noFail_parts hash catalog v cfg
      opts fs hd
    rw [hres, hloop]

theorem refresh_on_master (hash : String → String) (catalog : List TemplateAsset)
    (v : String) (cfg : FsPath) (opts : TemplateRefreshOptions) (fs : Fs)
    (a : TemplateAsset) (ha : a ∈ catalog)
    (hnd : (catalog.map (dest_path cfg)).Nodup) :
    ∃ r, (refresh_templates_on hash noFail catalog v cfg opts fs).1 = .ok r ∧
      (classifyStep hash (load_manifest fs (templates_manifest_path cfg)) cfg
          opts a (fsRead fs (dest_path cfg a))).2
        ∈ bucketList (classifyStep hash
            (load_manifest fs (templates_manifest_path cfg)) cfg opts a
            (fsRead fs (dest_path cfg a))).1 r ∧
      fsRead (refresh_templates_on hash noFail catalog v cfg opts fs).2
          (dest_path cfg a)
        = stepDestContent hash (load_manifest fs (templates_manifest_path cfg))
            cfg opts a (fsRead fs (dest_path cfg a)) := by
  obtain ⟨r0, hr0⟩ := refreshLoop_noFail_ok hash
    (load_manifest fs (templates_manifest_path cfg)) cfg opts catalog fs
  have htr := refreshLoop_tracked hash
    (load_manifest fs (templates_manifest_path cfg)) cfg opts catalog fs a ha
    hnd r0 hr0
  refine ⟨r0, ?_, htr.1, ?_⟩
  · rw [refresh_on_fst, hr0]
  · by_cases hd : opts.dry_run = true
    · have hfs2 : (refresh_templates_on hash noFail catalog v cfg opts fs).2
          = fs := by
        obtain ⟨f, s, d⟩ := opts
        cases hd
        exact refresh_on_dry_fs hash noFail catalog v cfg f s fs
      rw [hfs2]
      have hdry2 : (refreshLoop hash noFail
          (load_manifest fs (templates_manifest_path cfg)) cfg opts catalog
          fs).2 = fs := by
        obtain ⟨f, s, d⟩ := opts
        cases hd
        exact refreshLoop_dry hash noFail _ cfg f s catalog fs
      have h2 := htr.2
      rw [hdry2] at h2
      exact h2
    · rw [Bool.not_eq_true] at hd
      obtain ⟨r, fsl, hloop, hres⟩ := refresh_on_noFail_parts hash catalog v cfg
        opts fs hd
      rw [hres]
      have : fsRead (fsWrite fsl (templates_manifest_path cfg)
          (saveManifestContent (manifest_of hash v catalog))) (dest_path cfg a)
          = fsRead fsl (dest_path cfg a) :=
        fsRead_fsWrite_ne _ _ _ _ (manifest_ne_dest cfg a)
      rw [this]
      have := htr.2
      rw [hloop] at this
      exact this

theorem refresh_on_unchanged_sound (hash : String → String)
    (catalog : List TemplateAsset) (v : String) (cfg : FsPath)
    (opts : TemplateRefreshOptions) (fs : Fs) (r : TemplateRefreshReport)
    (q : String) (hnd : (catalog.map (dest_path cfg)).Nodup)
    (hok : (refresh_templates_on hash noFail catalog v cfg opts fs).1 = .ok r)
    (hq : q ∈ r.unchanged) :
    ∃ c, c ∈ catalog ∧ q = display (dest_path cfg c) ∧
      (classifyStep hash (load_manifest fs (templates_manifest_path cfg)) cfg
          opts c (fsRead fs (dest_path cfg c))).1 = .unchanged := by
  rw [refresh_on_fst] at hok
  exact refreshLoop_unchanged_sound hash _ cfg opts catalog fs r q hnd hok hq

/-! ### Pointwise classification lemmas -/

theorem classify_missing (hash : String → String)
    (prev : Option TemplateManifest) (cfg : FsPath)
    (opts : TemplateRefreshOptions) (a : TemplateAsset) (curr : Option String)
    (h0 : curr = none) :
    classifyStep hash prev cfg opts a curr
      = (.created, display (dest_path cfg a)) := by
  unfold classifyStep
  rw [if_pos h0]

theorem classify_force (hash : String → String)
    (prev : Option TemplateManifest) (cfg : FsPath)
    (opts : TemplateRefreshOptions) (a : TemplateAsset) (curr : Option String)
    (c : String) (h0 : curr = some c) (hf : opts.force = true) :
    classifyStep hash prev cfg opts a curr
      = (if hash c = hash a.content then (Bucket.unchanged, display (dest_path cfg a))
         else (Bucket.updated, display (dest_path cfg a))) := by
  subst h0
  unfold classifyStep
  rw [if_neg (Option.some_ne_none c), if_pos hf]
  simp only [Option.map_some']
  by_cases hc : hash c = hash a.content
  · rw [if_pos (by exact congrArg some hc), if_pos hc]
  · rw [if_neg (fun he => hc (Option.some_inj.1 he)), if_neg hc]

theorem classify_untouched_upd (hash : String → String)
    (prev : Option TemplateManifest) (cfg : FsPath)
    (opts : TemplateRefreshOptions) (a : TemplateAsset) (curr : Option String)
    (c : String) (h0 : curr = some c) (hf : opts.force = false)
    (hold : prev.bind (fun m => m.find_hash a.kind a.name) = some (hash c))
    (hneq : hash c ≠ hash a.content) :
    classifyStep hash prev cfg opts a curr
      = (.updated, display (dest_path cfg a)) := by
  subst h0
  unfold classifyStep
  rw [if_neg (Option.some_ne_none c), if_neg (by simp [hf])]
  simp only [Option.map_some', hold]
  rw [if_pos trivial, if_pos hneq]

theorem classify_skipped (hash : String → String)
    (prev : Option TemplateManifest) (cfg : FsPath)
    (opts : TemplateRefreshOptions) (a : TemplateAsset) (curr : Option String)
    (c : String) (h0 : curr = some c) (hf : opts.force = false)
    (hs : opts.sidecar = false)
    (hold : ∀ h1, prev.bind (fun m => m.find_hash a.kind a.name) = some h1 →
      h1 ≠ hash c)
    (hneq : hash c ≠ hash a.content) :
    classifyStep hash prev cfg opts a curr
      = (.skippedModified, display (dest_path cfg a)) := by
  subst h0
  have htail : classifyTail cfg opts a (some (hash c)) (hash a.content)
      = (.skippedModified, display (dest_path cfg a)) := by
    unfold classifyTail
    rw [if_neg (fun he => hneq (Option.some_inj.1 he)), if_neg (by simp [hs])]
  unfold classifyStep
  rw [if_neg (Option.some_ne_none c), if_neg (by simp [hf])]
  simp only [Option.map_some']
  rcases hoh : prev.bind (fun m => m.find_hash a.kind a.name) with _ | ph
  · exact htail
  · dsimp only
    rw [if_neg (hold ph hoh)]
    exact htail

/-- Splitting the line loop of load_manifest at a list concatenation. -/
theorem loadLinesAux_append (l1 l2 : List String) (v : String)
    (es : List ManifestEntry) :
    loadLinesAux (l1 ++ l2) v es
      = match loadLinesAux l1 v es with
        | none => none
        | some (v2, es2) => loadLinesAux l2 v2 es2 := by
  induction l1 generalizing v es with
  | nil => rfl
  | cons a rest ih =>
    simp only [List.cons_append, loadLinesAux]
    by_cases h1 : (rustTrim a).data = []
    · rw [if_pos h1, if_pos h1]
      exact ih v es
    · rw [if_neg h1, if_neg h1]
      by_cases h2 : (rustTrim a).data.head? = some (Char.ofNat 35)
      · rw [if_pos h2, if_pos h2]
        exact ih v es
      · rw [if_neg h2, if_neg h2]
        cases hv : stripVersionEq (rustTrim a).data with
        | some v3 => exact ih (String.mk v3) es
        | none =>
          cases hp : parseEntryLine (rustTrim a) with
          | none => rfl
          | some e => exact ih v (es ++ [e])

/-! ### Claims -/

/-- C9: on every successful synchronize call, each catalog asset contributes
exactly one path to exactly one of the five report buckets, so the total
number of entries across the buckets equals the number of catalog assets. -/
theorem claim_C9 (hash : String → String) (wfail : FsPath → Bool)
    (catalog : List TemplateAsset) (v : String) (cfg : FsPath)
    (opts : TemplateRefreshOptions) (fs : Fs) (r : TemplateRefreshReport)
    (hok : (refresh_templates_on hash wfail catalog v cfg opts fs).1 = .ok r) :
    reportSize r = catalog.length := by
  unfold refresh_templates_on at hok
  dsimp only at hok
  cases hloop : refreshLoop hash wfail
      (load_manifest fs (templates_manifest_path cfg)) cfg opts catalog fs with
  | mk r1 fsl =>
    rw [hloop] at hok
    cases r1 with
    | error e => simp at hok
    | ok rr =>
      dsimp only at hok
      have hsz := refreshLoop_size hash wfail
        (load_manifest fs (templates_manifest_path cfg)) cfg opts catalog fs rr
        (by rw [hloop])
      by_cases hd : opts.dry_run = true
      · rw [if_pos hd] at hok
        simp only at hok
        cases hok
        exact hsz
      · rw [if_neg hd] at hok
        cases hsave : save_manifest wfail fsl (templates_manifest_path cfg)
            (manifest_of hash v catalog) with
        | none =>
          rw [hsave] at hok
          simp at hok
        | some fs2 =>
          rw [hsave] at hok
          simp only at hok
          cases hok
          exact hsz

theorem claim_C9_witness :
    reportSize ⟨["c/baselines/a.toml"], [], [], [], []⟩
      = [(⟨.Baselines, "a", "x"⟩ : TemplateAsset)].length :=
  claim_C9 id noFail [⟨.Baselines, "a", "x"⟩] "1" ["c"] ⟨false, false, false⟩
    [] ⟨["c/baselines/a.toml"], [], [], [], []⟩ rfl

/-- C7: whenever synchronize returns an error (in particular when any
per-asset write failed), the manifest file is left exactly as it was: the
manifest write happens strictly after all per-asset actions, so it never
records success for an asset whose write failed. -/
theorem claim_C7 (hash : String → String) (wfail : FsPath → Bool)
    (catalog : List TemplateAsset) (v : String) (cfg : FsPath)
    (opts : TemplateRefreshOptions) (fs : Fs) (e : String)
    (herr : (refresh_templates_on hash wfail catalog v cfg opts fs).1
      = .error e) :
    fsRead (refresh_templates_on hash wfail catalog v cfg opts fs).2
        (templates_manifest_path cfg)
      = fsRead fs (templates_manifest_path cfg) := by
  have hpres := refreshLoop_fs_other hash wfail
    (load_manifest fs (templates_manifest_path cfg)) cfg opts catalog fs
    (templates_manifest_path cfg)
    (fun c _ => ⟨manifest_ne_dest cfg c, manifest_ne_sidecar cfg c⟩)
  unfold refresh_templates_on at herr ⊢
  dsimp only at herr ⊢
  cases hloop : refreshLoop hash wfail
      (load_manifest fs (templates_manifest_path cfg)) cfg opts catalog fs with
  | mk r1 fsl =>
    rw [hloop] at herr hpres
    cases r1 with
    | error e2 => exact hpres
    | ok rr =>
      dsimp only at herr ⊢
      by_cases hd : opts.dry_run = true
      · rw [if_pos hd] at herr
        simp at herr
      · rw [if_neg hd] at herr ⊢
        cases hsave : save_manifest wfail fsl (templates_manifest_path cfg)
            (manifest_of hash v catalog) with
        | none =>
          exact hpres
        | some fs2 =>
          rw [hsave] at herr
          simp at herr

theorem claim_C7_witness :
    fsRead (refresh_templates_on id
        (fun p => decide (p = ["c", "outcomes", "b.toml"]))
        [⟨.Baselines, "a", "x"⟩, ⟨.Outcomes, "b", "y"⟩] "1" ["c"]
        ⟨false, false, false⟩ []).2 (templates_manifest_path ["c"])
      = fsRead [] (templates_manifest_path ["c"]) :=
  claim_C7 id (fun p => decide (p = ["c", "outcomes", "b.toml"]))
    [⟨.Baselines, "a", "x"⟩, ⟨.Outcomes, "b", "y"⟩] "1" ["c"]
    ⟨false, false, false⟩ [] "failed to write c/outcomes/b.toml" rfl

/-- C3: with dry_run set, synchronize changes no file at all under the
config directory (the filesystem is returned untouched), and the returned
classification is exactly the one a non-dry run from the same state would
produce, for every combination of the force and sidecar options. -/
theorem claim_C3 (hash : String → String) (catalog : List TemplateAsset)
    (v : String) (cfg : FsPath) (f s : Bool) (fs : Fs)
    (hnd : (catalog.map (dest_path cfg)).Nodup) :
    (refresh_templates_on hash noFail catalog v cfg ⟨f, s, true⟩ fs).2 = fs ∧
    (refresh_templates_on hash noFail catalog v cfg ⟨f, s, true⟩ fs).1
      = (refresh_templates_on hash noFail catalog v cfg ⟨f, s, false⟩ fs).1 := by
  refine ⟨refresh_on_dry_fs hash noFail catalog v cfg f s fs, ?_⟩
  rw [refresh_on_fst, refresh_on_fst]
  exact refreshLoop_class_eq hash
    (load_manifest fs (templates_manifest_path cfg)) cfg f s catalog fs fs
    (fun c _ => rfl) hnd

theorem claim_C3_witness :
    (refresh_templates_on id noFail [⟨.Baselines, "a", "x"⟩] "1" ["c"]
        ⟨false, false, true⟩ []).2 = [] ∧
    (refresh_templates_on id noFail [⟨.Baselines, "a", "x"⟩] "1" ["c"]
        ⟨false, false, true⟩ []).1
      = (refresh_templates_on id noFail [⟨.Baselines, "a", "x"⟩] "1" ["c"]
          ⟨false, false, false⟩ []).1 :=
  claim_C3 id [⟨.Baselines, "a", "x"⟩] "1" ["c"] false false [] (by decide)

/-- C1 (corrected): during manifest load, a trimmed line that is not blank,
not a comment, not a version line, and does not parse into three
colon-separated fields with a recognized kind token causes load_manifest to
reject the WHOLE manifest (None); the well-formed entry lines of the same
file are not loaded either, contrary to the per-line skipping the spec
describes. -/
theorem claim_C1 (content : String) (pre post : List String) (bad : String)
    (hsplit : rustLines content = pre ++ bad :: post)
    (v0 : String) (es : List ManifestEntry)
    (hpre : loadLinesAux pre "" [] = some (v0, es))
    (hne : ¬ (rustTrim bad).data = [])
    (hnc : ¬ (rustTrim bad).data.head? = some (Char.ofNat 35))
    (hnv : stripVersionEq (rustTrim bad).data = none)
    (hbad : parseEntryLine (rustTrim bad) = none) :
    loadManifestFromContent content = none := by
  unfold loadManifestFromContent
  rw [hsplit, loadLinesAux_append, hpre]
  simp only [loadLinesAux]
  rw [if_neg hne, if_neg hnc, hnv, hbad]

theorem claim_C1_witness :
    loadManifestFromContent "version=1\nbaselines:a:h1\nfuture:b:h2" = none :=
  claim_C1 "version=1\nbaselines:a:h1\nfuture:b:h2"
    ["version=1", "baselines:a:h1"] [] "future:b:h2" rfl
    "1" [⟨TemplateKind.Baselines, "a", "h1"⟩] rfl (by decide) (by decide) rfl rfl

theorem claim_C1_cex :
    loadManifestFromContent "version=1\nbaselines:a:h1"
      = some ⟨"1", [⟨TemplateKind.Baselines, "a", "h1"⟩]⟩ ∧
    loadManifestFromContent "version=1\nbaselines:a:h1\nfuture:b:h2" = none :=
  ⟨rfl, rfl⟩

/-- C10 (corrected): a manifest whose version is non-empty, newline-free and
free of trailing whitespace, and whose entries have names free of colons and
newlines and hashes free of newlines and of trailing whitespace, survives a
save_manifest / load_manifest round trip unchanged. (The spec omits the two
trailing-whitespace conditions, which the per-line trim of load_manifest
makes necessary.) -/
theorem claim_C10 (fs : Fs) (p : FsPath) (m : TemplateManifest) (fs2 : Fs)
    (hv : cleanVersion m.version = true)
    (he : ∀ e ∈ m.entries, cleanEntry e = true)
    (hsave : save_manifest noFail fs p m = some fs2) :
    load_manifest fs2 p = some m := by
  unfold save_manifest at hsave
  rw [fsWriteF_noFail] at hsave
  cases hsave
  unfold load_manifest
  rw [fsRead_fsWrite, if_pos rfl]
  exact load_saved_manifest m hv he

theorem claim_C10_witness :
    load_manifest
        [((["m"] : FsPath), "version=1\nbaselines:a:h1\noutcomes:b:h2\n")] ["m"]
      = some ⟨"1", [⟨TemplateKind.Baselines, "a", "h1"⟩,
          ⟨TemplateKind.Outcomes, "b", "h2"⟩]⟩ :=
  claim_C10 [] ["m"]
    ⟨"1", [⟨TemplateKind.Baselines, "a", "h1"⟩,
      ⟨TemplateKind.Outcomes, "b", "h2"⟩]⟩
    [((["m"] : FsPath), "version=1\nbaselines:a:h1\noutcomes:b:h2\n")]
    (by decide) (by decide) rfl

theorem claim_C10_cex :
    save_manifest noFail [] ["m"] ⟨"1", [⟨TemplateKind.Baselines, "a", "h "⟩]⟩
        = some [((["m"] : FsPath), "version=1\nbaselines:a:h \n")] ∧
    load_manifest [((["m"] : FsPath), "version=1\nbaselines:a:h \n")] ["m"]
        ≠ some ⟨"1", [⟨TemplateKind.Baselines, "a", "h "⟩]⟩ :=
  ⟨rfl, by decide⟩

/-- C4: a catalog asset whose destination file exists with content whose
hash differs from the bundled hash and from every hash the previous manifest
records for it is left byte-identical by a force=false, sidecar=false
synchronize call, and its destination path is reported under
skipped_modified. -/
theorem claim_C4 (hash : String → String) (catalog : List TemplateAsset)
    (v : String) (cfg : FsPath) (d : Bool) (fs : Fs) (a : TemplateAsset)
    (c : String) (ha : a ∈ catalog)
    (hnd : (catalog.map (dest_path cfg)).Nodup)
    (hread : fsRead fs (dest_path cfg a) = some c)
    (hneq : hash c ≠ hash a.content)
    (hold : ∀ h1, (load_manifest fs (templates_manifest_path cfg)).bind
        (fun m => m.find_hash a.kind a.name) = some h1 → h1 ≠ hash c) :
    fsRead (refresh_templates_on hash noFail catalog v cfg
        ⟨false, false, d⟩ fs).2 (dest_path cfg a) = some c ∧
    ∃ r, (refresh_templates_on hash noFail catalog v cfg ⟨false, false, d⟩ fs).1
        = .ok r ∧ display (dest_path cfg a) ∈ r.skipped_modified := by
  obtain ⟨r, hok, hmem, hfs⟩ :=
    refresh_on_master hash catalog v cfg ⟨false, false, d⟩ fs a ha hnd
  have hcl := classify_skipped hash
    (load_manifest fs (templates_manifest_path cfg)) cfg ⟨false, false, d⟩ a
    (fsRead fs (dest_path cfg a)) c hread rfl rfl hold hneq
  refine ⟨?_, r, hok, ?_⟩
  · rw [hfs]
    unfold stepDestContent
    rw [hcl]
    simp [hread]
  · rw [hcl] at hmem
    exact hmem

theorem claim_C4_witness :
    fsRead (refresh_templates_on id noFail
        [⟨TemplateKind.Baselines, "a", "new"⟩] "1" ["c"] ⟨false, false, false⟩
        [(["c", "baselines", "a.toml"], "user")]).2
        (dest_path ["c"] ⟨TemplateKind.Baselines, "a", "new"⟩) = some "user" ∧
    ∃ r, (refresh_templates_on id noFail
        [⟨TemplateKind.Baselines, "a", "new"⟩] "1" ["c"] ⟨false, false, false⟩
        [(["c", "baselines", "a.toml"], "user")]).1 = .ok r ∧
      display (dest_path ["c"] ⟨TemplateKind.Baselines, "a", "new"⟩)
        ∈ r.skipped_modified :=
  claim_C4 id [⟨TemplateKind.Baselines, "a", "new"⟩] "1" ["c"] false
    [(["c", "baselines", "a.toml"], "user")] ⟨TemplateKind.Baselines, "a", "new"⟩
    "user" (List.mem_singleton.2 rfl) (by decide) rfl (by decide)
    (fun h1 hcontra => nomatch hcontra)

/-- C5: a catalog asset whose destination file exists, whose current content
hash equals the hash the previous manifest records for it, and whose bundled
content hashes differently, is overwritten with the bundled content by a
non-dry-run synchronize call (any force/sidecar setting) and reported under
updated. -/
theorem claim_C5 (hash : String → String) (catalog : List TemplateAsset)
    (v : String) (cfg : FsPath) (f s : Bool) (fs : Fs) (a : TemplateAsset)
    (c : String) (ha : a ∈ catalog)
    (hnd : (catalog.map (dest_path cfg)).Nodup)
    (hread : fsRead fs (dest_path cfg a) = some c)
    (hold : (load_manifest fs (templates_manifest_path cfg)).bind
        (fun m => m.find_hash a.kind a.name) = some (hash c))
    (hneq : hash c ≠ hash a.content) :
    fsRead (refresh_templates_on hash noFail catalog v cfg ⟨f, s, false⟩ fs).2
        (dest_path cfg a) = some a.content ∧
    ∃ r, (refresh_templates_on hash noFail catalog v cfg ⟨f, s, false⟩ fs).1
        = .ok r ∧ display (dest_path cfg a) ∈ r.updated := by
  obtain ⟨r, hok, hmem, hfs⟩ :=
    refresh_on_master hash catalog v cfg ⟨f, s, false⟩ fs a ha hnd
  have hcl : classifyStep hash (load_manifest fs (templates_manifest_path cfg))
      cfg ⟨f, s, false⟩ a (fsRead fs (dest_path cfg a))
      = (.updated, display (dest_path cfg a)) := by
    cases f with
    | false =>
      exact classify_untouched_upd hash _ cfg ⟨false, s, false⟩ a _ c hread rfl
        hold hneq
    | true =>
      rw [classify_force hash _ cfg ⟨true, s, false⟩ a _ c hread rfl]
      rw [if_neg hneq]
  refine ⟨?_, r, hok, ?_⟩
  · rw [hfs]
    unfold stepDestContent
    rw [hcl]
    simp
  · rw [hcl] at hmem
    exact hmem

theorem claim_C5_witness :
    fsRead (refresh_templates_on id noFail
        [⟨TemplateKind.Baselines, "a", "new"⟩] "2" ["c"] ⟨false, false, false⟩
        [(["c", "baselines", "a.toml"], "old"),
         (["c", "templates.manifest"], "version=1\nbaselines:a:old\n")]).2
        (dest_path ["c"] ⟨TemplateKind.Baselines, "a", "new"⟩) = some "new" ∧
    ∃ r, (refresh_templates_on id noFail
        [⟨TemplateKind.Baselines, "a", "new"⟩] "2" ["c"] ⟨false, false, false⟩
        [(["c", "baselines", "a.toml"], "old"),
         (["c", "templates.manifest"], "version=1\nbaselines:a:old\n")]).1
        = .ok r ∧
      display (dest_path ["c"] ⟨TemplateKind.Baselines, "a", "new"⟩)
        ∈ r.updated :=
  claim_C5 id [⟨TemplateKind.Baselines, "a", "new"⟩] "2" ["c"] false false
    [(["c", "baselines", "a.toml"], "old"),
     (["c", "templates.manifest"], "version=1\nbaselines:a:old\n")]
    ⟨TemplateKind.Baselines, "a", "new"⟩ "old" (List.mem_singleton.2 rfl)
    (by decide) rfl rfl (by decide)

/-- C6: with force=true and dry_run=false, whatever the initial state of a
catalog asset's destination file (absent, matching the bundled content, or
different), after the call the file's content equals the bundled content;
the asset is reported unchanged exactly when it already matched, and
otherwise lands in created or updated. -/
theorem claim_C6 (hash : String → String) (catalog : List TemplateAsset)
    (v : String) (cfg : FsPath) (s : Bool) (fs : Fs) (a : TemplateAsset)
    (hinj : Function.Injective hash)
    (ha : a ∈ catalog)
    (hdisp : (catalog.map (fun x => display (dest_path cfg x))).Nodup) :
    fsRead (refresh_templates_on hash noFail catalog v cfg ⟨true, s, false⟩ fs).2
        (dest_path cfg a) = some a.content ∧
    ∃ r, (refresh_templates_on hash noFail catalog v cfg ⟨true, s, false⟩ fs).1
        = .ok r ∧
      (display (dest_path cfg a) ∈ r.unchanged ↔
        fsRead fs (dest_path cfg a) = some a.content) ∧
      (fsRead fs (dest_path cfg a) ≠ some a.content →
        display (dest_path cfg a) ∈ r.created ∨
          display (dest_path cfg a) ∈ r.updated) := by
  have hnd : (catalog.map (dest_path cfg)).Nodup := by
    refine List.Nodup.of_map display ?_
    rw [List.map_map]
    exact hdisp
  obtain ⟨r, hok, hmem, hfs⟩ :=
    refresh_on_master hash catalog v cfg ⟨true, s, false⟩ fs a ha hnd
  refine ⟨?_, r, hok, ⟨?_, ?_⟩, ?_⟩
  · rw [hfs]
    unfold stepDestContent
    cases hcur : fsRead fs (dest_path cfg a) with
    | none =>
      rw [classify_missing hash
        (load_manifest fs (templates_manifest_path cfg)) cfg
        ⟨true, s, false⟩ a none rfl]
      simp
    | some c =>
      rw [classify_force hash
        (load_manifest fs (templates_manifest_path cfg)) cfg
        ⟨true, s, false⟩ a (some c) c rfl rfl]
      by_cases hh : hash c = hash a.content
      · rw [if_pos hh]
        simp [hinj hh]
      · rw [if_neg hh]
        simp
  · intro hq
    obtain ⟨c1, hc1cat, hqeq, hcls⟩ := refresh_on_unchanged_sound hash catalog
      v cfg ⟨true, s, false⟩ fs r (display (dest_path cfg a)) hnd hok hq
    have hac : a = c1 := List.inj_on_of_nodup_map hdisp ha hc1cat hqeq
    subst hac
    cases hcur : fsRead fs (dest_path cfg a) with
    | none =>
      rw [classify_missing hash
        (load_manifest fs (templates_manifest_path cfg)) cfg
        ⟨true, s, false⟩ a (fsRead fs (dest_path cfg a)) hcur] at hcls
      simp at hcls
    | some c =>
      rw [classify_force hash
        (load_manifest fs (templates_manifest_path cfg)) cfg
        ⟨true, s, false⟩ a (fsRead fs (dest_path cfg a)) c hcur rfl] at hcls
      by_cases hh : hash c = hash a.content
      · exact congrArg some (hinj hh)
      · rw [if_neg hh] at hcls
        simp at hcls
  · intro heq
    have hcl := classify_force hash
      (load_manifest fs (templates_manifest_path cfg)) cfg
      ⟨true, s, false⟩ a (fsRead fs (dest_path cfg a)) a.content heq rfl
    rw [if_pos rfl] at hcl
    rw [hcl] at hmem
    exact hmem
  · intro hne
    cases hcur : fsRead fs (dest_path cfg a) with
    | none =>
      rw [classify_missing hash
        (load_manifest fs (templates_manifest_path cfg)) cfg
        ⟨true, s, false⟩ a (fsRead fs (dest_path cfg a)) hcur] at hmem
      exact Or.inl hmem
    | some c =>
      have hh : hash c ≠ hash a.content := by
        intro h
        exact hne (hcur.trans (congrArg some (hinj h)))
      rw [classify_force hash
        (load_manifest fs (templates_manifest_path cfg)) cfg
        ⟨true, s, false⟩ a (fsRead fs (dest_path cfg a)) c hcur rfl,
        if_neg hh] at hmem
      exact Or.inr hmem

theorem claim_C6_witness :
    (fsRead (refresh_templates_on id noFail
        [⟨TemplateKind.Baselines, "a", "x"⟩] "1" ["c"] ⟨true, false, false⟩
        []).2 (dest_path ["c"] ⟨TemplateKind.Baselines, "a", "x"⟩)
      = some "x") ∧
    ∃ r, (refresh_templates_on id noFail
        [⟨TemplateKind.Baselines, "a", "x"⟩] "1" ["c"] ⟨true, false, false⟩
        []).1 = .ok r ∧
      (display (dest_path ["c"] ⟨TemplateKind.Baselines, "a", "x"⟩)
          ∈ r.unchanged ↔
        fsRead [] (dest_path ["c"] ⟨TemplateKind.Baselines, "a", "x"⟩)
          = some "x") ∧
      (fsRead [] (dest_path ["c"] ⟨TemplateKind.Baselines, "a", "x"⟩)
          ≠ some "x" →
        display (dest_path ["c"] ⟨TemplateKind.Baselines, "a", "x"⟩)
            ∈ r.created ∨
          display (dest_path ["c"] ⟨TemplateKind.Baselines, "a", "x"⟩)
            ∈ r.updated) :=
  claim_C6 id [⟨TemplateKind.Baselines, "a", "x"⟩] "1" ["c"] false []
    ⟨TemplateKind.Baselines, "a", "x"⟩ Function.injective_id
    (List.mem_singleton.2 rfl) (by decide)

/-- A destination whose content hashes like the bundled content classifies
as unchanged, whatever the previous manifest and options say. -/
theorem classify_match (hash : String → String) (prev : Option TemplateManifest)
    (cfg : FsPath) (opts : TemplateRefreshOptions) (a : TemplateAsset)
    (curr : Option String) (c : String) (h0 : curr = some c)
    (heq : hash c = hash a.content) :
    classifyStep hash prev cfg opts a curr
      = (.unchanged, display (dest_path cfg a)) := by
  subst h0
  unfold classifyStep
  rw [if_neg (Option.some_ne_none c)]
  simp only [Option.map_some']
  have htail : classifyTail cfg opts a (some (hash c)) (hash a.content)
      = (.unchanged, display (dest_path cfg a)) := by
    unfold classifyTail
    rw [if_pos (congrArg some heq)]
  by_cases hf : opts.force = true
  · rw [if_pos hf, if_pos (congrArg some heq)]
  · rw [if_neg hf]
    cases hold : prev.bind (fun m => m.find_hash a.kind a.name) with
    | none =>
      dsimp only
      exact htail
    | some p =>
      dsimp only
      by_cases hp : p = hash c
      · rw [if_pos hp, if_neg (fun h => h heq)]
      · rw [if_neg hp]
        exact htail

/-- A destination whose content hashes differently from the bundled content
is never classified as unchanged. -/
theorem classify_nomatch (hash : String → String)
    (prev : Option TemplateManifest) (cfg : FsPath)
    (opts : TemplateRefreshOptions) (a : TemplateAsset) (curr : Option String)
    (c : String) (h0 : curr = some c) (hne : hash c ≠ hash a.content) :
    (classifyStep hash prev cfg opts a curr).1 ≠ .unchanged := by
  subst h0
  unfold classifyStep
  rw [if_neg (Option.some_ne_none c)]
  simp only [Option.map_some']
  have htail : (classifyTail cfg opts a (some (hash c)) (hash a.content)).1
      ≠ .unchanged := by
    unfold classifyTail
    rw [if_neg (fun he => hne (Option.some_inj.1 he))]
    by_cases hs : opts.sidecar = true
    · rw [if_pos hs]
      simp
    · rw [if_neg hs]
      simp
  by_cases hf : opts.force = true
  · rw [if_pos hf, if_neg (fun he => hne (Option.some_inj.1 he))]
    simp
  · rw [if_neg hf]
    cases hold : prev.bind (fun m => m.find_hash a.kind a.name) with
    | none =>
      dsimp only
      exact htail
    | some p =>
      dsimp only
      by_cases hp : p = hash c
      · rw [if_pos hp, if_pos hne]
        simp
      · rw [if_neg hp]
        exact htail

/-- When every asset of the catalog classifies as unchanged, the failure-free
loop reports every destination path under unchanged and nothing anywhere
else. -/
theorem refreshLoop_all_unchanged (hash : String → String)
    (prev : Option TemplateManifest) (cfg : FsPath)
    (opts : TemplateRefreshOptions) (assets : List TemplateAsset) (fs : Fs)
    (hnd : (assets.map (dest_path cfg)).Nodup)
    (hall : ∀ a ∈ assets,
      (classifyStep hash prev cfg opts a (fsRead fs (dest_path cfg a))).1
        = .unchanged) :
    (refreshLoop hash noFail prev cfg opts assets fs).1
      = .ok ⟨[], [], assets.map (fun a => display (dest_path cfg a)), [], []⟩ := by
  induction assets generalizing fs with
  | nil => rfl
  | cons a rest ih =>
    simp only [List.map_cons, List.nodup_cons] at hnd
    obtain ⟨hna, hndr⟩ := hnd
    simp only [refreshLoop]
    cases hstep : refreshStep hash noFail prev cfg opts a fs with
    | mk e1 fs1 =>
      have h1 := refreshStep_noFail hash prev cfg opts a fs
      rw [hstep] at h1
      simp only at h1
      subst h1
      have hrest : ∀ b ∈ rest,
          (classifyStep hash prev cfg opts b (fsRead fs1 (dest_path cfg b))).1
            = .unchanged := by
        intro b hb
        have hpres : fsRead fs1 (dest_path cfg b) = fsRead fs (dest_path cfg b) := by
          have hother := refreshStep_fs_other hash noFail prev cfg opts a fs
            (dest_path cfg b)
            (fun h => hna (h ▸ List.mem_map_of_mem (dest_path cfg) hb))
            (dest_ne_sidecar cfg b a)
          rw [hstep] at hother
          exact hother
        rw [hpres]
        exact hall b (List.mem_cons_of_mem a hb)
      have h2 := ih fs1 hndr hrest
      dsimp only
      cases hloop2 : refreshLoop hash noFail prev cfg opts rest fs1 with
      | mk e2 fs2 =>
        rw [hloop2] at h2
        simp only at h2
        subst h2
        have hua := hall a (List.mem_cons_self a rest)
        have hda := classify_snd_unchanged hash prev cfg opts a
          (fsRead fs (dest_path cfg a)) hua
        dsimp only
        rw [hua, hda]
        simp [pushBucket]

/-- C2 (corrected): when a non-dry-run synchronize succeeds and reports no
skipped_modified and no sidecar paths, a second run with the same options
and no files touched in between reports empty created, updated,
skipped_modified and sidecar lists and an unchanged list of exactly one
path per catalog asset. (The spec states this for every run; a dry first
run, or a run that skips or sidecars a user-modified file, repeats its
classification instead, as the counterexample shows.) -/
theorem claim_C2 (hash : String → String) (catalog : List TemplateAsset)
    (v : String) (cfg : FsPath) (f s : Bool) (fs : Fs)
    (r1 : TemplateRefreshReport)
    (hnd : (catalog.map (dest_path cfg)).Nodup)
    (hok1 : (refresh_templates_on hash noFail catalog v cfg ⟨f, s, false⟩ fs).1
      = .ok r1)
    (hskip : r1.skipped_modified = [])
    (hsc : r1.sidecar = []) :
    ∃ r2, (refresh_templates_on hash noFail catalog v cfg ⟨f, s, false⟩
        (refresh_templates_on hash noFail catalog v cfg ⟨f, s, false⟩ fs).2).1
      = .ok r2 ∧
      r2.created = [] ∧ r2.updated = [] ∧ r2.sidecar = [] ∧
      r2.skipped_modified = [] ∧ r2.unchanged.length = catalog.length := by
  have hall2 : ∀ a ∈ catalog,
      (classifyStep hash
        (load_manifest (refresh_templates_on hash noFail catalog v cfg
          ⟨f, s, false⟩ fs).2 (templates_manifest_path cfg)) cfg
        ⟨f, s, false⟩ a
        (fsRead (refresh_templates_on hash noFail catalog v cfg ⟨f, s, false⟩
          fs).2 (dest_path cfg a))).1 = .unchanged := by
    intro a ha
    obtain ⟨r1x, hok1x, hmem, hfsa⟩ :=
      refresh_on_master hash catalog v cfg ⟨f, s, false⟩ fs a ha hnd
    rw [hok1] at hok1x
    have hre : r1 = r1x := Except.ok.inj hok1x
    subst hre
    cases hc1 : fsRead fs (dest_path cfg a) with
    | none =>
      have hcur2 : fsRead (refresh_templates_on hash noFail catalog v cfg
          ⟨f, s, false⟩ fs).2 (dest_path cfg a) = some a.content := by
        rw [hfsa, hc1]
        unfold stepDestContent
        rw [classify_missing hash
          (load_manifest fs (templates_manifest_path cfg)) cfg
          ⟨f, s, false⟩ a none rfl]
        simp
      rw [classify_match hash _ cfg ⟨f, s, false⟩ a _ a.content hcur2 rfl]
    | some c =>
      by_cases heq : hash c = hash a.content
      · have hcur2 : fsRead (refresh_templates_on hash noFail catalog v cfg
            ⟨f, s, false⟩ fs).2 (dest_path cfg a) = some c := by
          rw [hfsa, hc1]
          unfold stepDestContent
          rw [classify_match hash
            (load_manifest fs (templates_manifest_path cfg)) cfg
            ⟨f, s, false⟩ a (some c) c rfl heq]
          simp
        rw [classify_match hash _ cfg ⟨f, s, false⟩ a _ c hcur2 heq]
      · cases hb : (classifyStep hash
            (load_manifest fs (templates_manifest_path cfg)) cfg
            ⟨f, s, false⟩ a (fsRead fs (dest_path cfg a))).1 with
        | created =>
          have hcur2 : fsRead (refresh_templates_on hash noFail catalog v cfg
              ⟨f, s, false⟩ fs).2 (dest_path cfg a) = some a.content := by
            rw [hfsa]
            unfold stepDestContent
            rw [hb]
            simp
          rw [classify_match hash _ cfg ⟨f, s, false⟩ a _ a.content hcur2 rfl]
        | updated =>
          have hcur2 : fsRead (refresh_templates_on hash noFail catalog v cfg
              ⟨f, s, false⟩ fs).2 (dest_path cfg a) = some a.content := by
            rw [hfsa]
            unfold stepDestContent
            rw [hb]
            simp
          rw [classify_match hash _ cfg ⟨f, s, false⟩ a _ a.content hcur2 rfl]
        | unchanged =>
          exact absurd hb (classify_nomatch hash
            (load_manifest fs (templates_manifest_path cfg)) cfg
            ⟨f, s, false⟩ a (fsRead fs (dest_path cfg a)) c hc1 heq)
        | skippedModified =>
          rw [hb] at hmem
          simp only [bucketList] at hmem
          rw [hskip] at hmem
          exact absurd hmem (List.not_mem_nil _)
        | sidecar =>
          rw [hb] at hmem
          simp only [bucketList] at hmem
          rw [hsc] at hmem
          exact absurd hmem (List.not_mem_nil _)
  refine ⟨⟨[], [], catalog.map (fun a => display (dest_path cfg a)), [], []⟩,
    ?_, rfl, rfl, rfl, rfl, by simp⟩
  rw [refresh_on_fst]
  exact refreshLoop_all_unchanged hash _ cfg ⟨f, s, false⟩ catalog _ hnd hall2

theorem claim_C2_witness :
    ∃ r2, (refresh_templates_on id noFail [⟨TemplateKind.Baselines, "a", "x"⟩]
        "1" ["c"] ⟨false, false, false⟩
        (refresh_templates_on id noFail [⟨TemplateKind.Baselines, "a", "x"⟩]
          "1" ["c"] ⟨false, false, false⟩ []).2).1
      = .ok r2 ∧
      r2.created = [] ∧ r2.updated = [] ∧ r2.sidecar = [] ∧
      r2.skipped_modified = [] ∧
      r2.unchanged.length = [(⟨TemplateKind.Baselines, "a", "x"⟩ :
        TemplateAsset)].length :=
  claim_C2 id [⟨TemplateKind.Baselines, "a", "x"⟩] "1" ["c"] false false []
    ⟨["c/baselines/a.toml"], [], [], [], []⟩ (by decide) rfl rfl rfl

theorem claim_C2_cex :
    (refresh_templates_on id noFail [⟨TemplateKind.Baselines, "a", "x"⟩] "1"
        ["c"] ⟨false, false, true⟩
        (refresh_templates_on id noFail [⟨TemplateKind.Baselines, "a", "x"⟩]
          "1" ["c"] ⟨false, false, true⟩ []).2).1
      = .ok ⟨["c/baselines/a.toml"], [], [], [], []⟩ ∧
    (refresh_templates_on id noFail [⟨TemplateKind.Baselines, "a", "x"⟩] "1"
        ["c"] ⟨false, false, false⟩
        (refresh_templates_on id noFail [⟨TemplateKind.Baselines, "a", "x"⟩]
          "1" ["c"] ⟨false, false, false⟩
          [(["c", "baselines", "a.toml"], "user")]).2).1
      = .ok ⟨[], [], [], ["c/baselines/a.toml"], []⟩ :=
  ⟨rfl, rfl⟩

/-! ### ensure_templates_initialized lemmas -/

theorem string_inj (s t : String) (h : s.data = t.data) : s = t := by
  cases s
  cases t
  cases h
  rfl

theorem append_single_ne (l : List String) (x y : String) (h : x ≠ y) :
    l ++ [x] ≠ l ++ [y] := by
  intro he
  have h1 := List.append_cancel_left he
  simp only [List.cons.injEq, and_true] at h1
  exact h h1

theorem kind_dir_length (cfg : FsPath) (k : TemplateKind) :
    (kind_dir cfg k).length = cfg.length + 1 := by
  cases k <;> simp [kind_dir]

theorem kind_dir_ne (cfg : FsPath) : kind_dir cfg .Baselines ≠ kind_dir cfg .Outcomes :=
  append_single_ne cfg "baselines" "outcomes" (by decide)

theorem kind_child_take (cfg : FsPath) (k : TemplateKind) (nm : String) :
    (kind_dir cfg k ++ [nm]).take (cfg.length + 1) = kind_dir cfg k := by
  rw [← kind_dir_length cfg k]
  exact List.take_left (kind_dir cfg k) [nm]

theorem kind_child_ne (cfg : FsPath) (k k2 : TemplateKind) (x y : String)
    (h : k ≠ k2) : kind_dir cfg k ++ [x] ≠ kind_dir cfg k2 ++ [y] := by
  intro he
  have h1 := congrArg (List.take (cfg.length + 1)) he
  rw [kind_child_take, kind_child_take] at h1
  cases k <;> cases k2 <;> first
    | exact h rfl
    | exact absurd h1 (kind_dir_ne cfg)
    | exact absurd h1.symm (kind_dir_ne cfg)

theorem manifest_take (cfg : FsPath) :
    (templates_manifest_path cfg).take (cfg.length + 1)
      = templates_manifest_path cfg := by
  rw [← manifest_path_length cfg]
  exact List.take_length ..

theorem manifest_ne_kind_dir (cfg : FsPath) (k : TemplateKind) :
    templates_manifest_path cfg ≠ kind_dir cfg k := by
  cases k
  · exact append_single_ne cfg "templates.manifest" "baselines" (by decide)
  · exact append_single_ne cfg "templates.manifest" "outcomes" (by decide)

theorem manifest_ne_kind_child (cfg : FsPath) (k : TemplateKind) (nm : String) :
    templates_manifest_path cfg ≠ kind_dir cfg k ++ [nm] := by
  intro he
  have h1 := congrArg List.length he
  rw [manifest_path_length] at h1
  simp [kind_dir_length] at h1

theorem extAux_toml (l : List Char) (acc : Option (List Char)) :
    extAux (l ++ Char.ofNat 46 :: [Char.ofNat 116, Char.ofNat 111,
      Char.ofNat 109, Char.ofNat 108]) acc
      = some [Char.ofNat 116, Char.ofNat 111, Char.ofNat 109, Char.ofNat 108] := by
  induction l generalizing acc with
  | nil => rfl
  | cons c cs ih =>
    simp only [List.cons_append, extAux]
    by_cases hc : c = Char.ofNat 46
    · rw [if_pos hc]
      exact ih _
    · rw [if_neg hc]
      exact ih _

theorem hasTomlExt_append (nm : String) (h : nm ≠ "") :
    hasTomlExt (nm ++ ".toml") = true := by
  have hd : nm.data ≠ [] := fun hh => h (string_inj nm "" hh)
  unfold hasTomlExt rustExtension
  cases hcd : nm.data with
  | nil => exact absurd hcd hd
  | cons c cs =>
    have hdata : (nm ++ ".toml").data
        = c :: (cs ++ Char.ofNat 46 :: [Char.ofNat 116, Char.ofNat 111,
            Char.ofNat 109, Char.ofNat 108]) := by
      rw [string_data_append, hcd]
      rfl
    rw [hdata]
    dsimp only
    by_cases hc : c = Char.ofNat 46
    · rw [if_pos hc, extAux_toml]
      rfl
    · rw [if_neg hc]
      have hre : extAux (c :: (cs ++ Char.ofNat 46 :: [Char.ofNat 116,
          Char.ofNat 111, Char.ofNat 109, Char.ofNat 108])) none
          = extAux ((c :: cs) ++ Char.ofNat 46 :: [Char.ofNat 116,
            Char.ofNat 111, Char.ofNat 109, Char.ofNat 108]) none := rfl
    
      rw [hre, extAux_toml]
      rfl

theorem fsRead_of_has_user_false (fs : Fs) (dir : FsPath) (nm : String)
    (hh : has_user_templates fs dir = false) (ht : hasTomlExt nm = true) :
    fsRead fs (dir ++ [nm]) = none := by
  induction fs with
  | nil => rfl
  | cons e rest ih =>
    unfold has_user_templates at hh
    simp only [List.any_cons, Bool.or_eq_false_iff] at hh
    obtain ⟨h1, h2⟩ := hh
    obtain ⟨q, c⟩ := e
    unfold fsRead
    by_cases hq : q = dir ++ [nm]
    · exfalso
      rw [hq] at h1
      unfold isDirectTomlChild at h1
      rw [List.take_left, List.drop_left] at h1
      simp [ht] at h1
    · rw [if_neg hq]
      exact ih h2

theorem ensureKindLoop_noFail_ok (dir : FsPath) (assets : List TemplateAsset)
    (fs : Fs) : ∃ c, (ensureKindLoop noFail dir assets fs).1 = .ok c := by
  induction assets generalizing fs with
  | nil => exact ⟨[], rfl⟩
  | cons a rest ih =>
    simp only [ensureKindLoop]
    by_cases hx : fsRead fs (dir ++ [a.name ++ ".toml"]) ≠ none
    · rw [if_pos hx]
      exact ih fs
    · rw [if_neg hx]
      rw [fsWriteF_noFail]
      dsimp only
      obtain ⟨c, hc⟩ := ih (fsWrite fs (dir ++ [a.name ++ ".toml"]) a.content)
      cases hloop : ensureKindLoop noFail dir rest
          (fsWrite fs (dir ++ [a.name ++ ".toml"]) a.content) with
      | mk e2 fs2 =>
        rw [hloop] at hc
        cases e2 with
        | error e => simp at hc
        | ok c2 => exact ⟨display (dir ++ [a.name ++ ".toml"]) :: c2, rfl⟩

theorem ensureKindLoop_fs_other (wfail : FsPath → Bool) (dir : FsPath)
    (assets : List TemplateAsset) (fs : Fs) (q : FsPath)
    (hq : ∀ a ∈ assets, q ≠ dir ++ [a.name ++ ".toml"]) :
    fsRead (ensureKindLoop wfail dir assets fs).2 q = fsRead fs q := by
  induction assets generalizing fs with
  | nil => rfl
  | cons a rest ih =>
    simp only [ensureKindLoop]
    by_cases hx : fsRead fs (dir ++ [a.name ++ ".toml"]) ≠ none
    · rw [if_pos hx]
      exact ih fs (fun b hb => hq b (List.mem_cons_of_mem a hb))
    · rw [if_neg hx]
      cases hw : fsWriteF wfail fs (dir ++ [a.name ++ ".toml"]) a.content with
      | none => rfl
      | some fs1 =>
        have hr1 : fsRead fs1 q = fsRead fs q := by
          unfold fsWriteF at hw
          by_cases hwp : wfail (dir ++ [a.name ++ ".toml"]) = true
          · rw [if_pos hwp] at hw
            cases hw
          · rw [if_neg hwp] at hw
            cases hw
            exact fsRead_fsWrite_ne _ _ _ _
              (Ne.symm (hq a (List.mem_cons_self a rest)))
        dsimp only
        cases hloop : ensureKindLoop wfail dir rest fs1 with
        | mk e2 fs2 =>
          have h2 := ih fs1 (fun b hb => hq b (List.mem_cons_of_mem a hb))
          rw [hloop] at h2
          cases e2 <;> exact h2.trans hr1

theorem ensureKindLoop_has_user (wfail : FsPath → Bool) (dir : FsPath)
    (assets : List TemplateAsset) (fs : Fs) (dir2 : FsPath)
    (hne : dir ≠ dir2) (hlen : dir2.length = dir.length) :
    has_user_templates (ensureKindLoop wfail dir assets fs).2 dir2
      = has_user_templates fs dir2 := by
  induction assets generalizing fs with
  | nil => rfl
  | cons a rest ih =>
    simp only [ensureKindLoop]
    by_cases hx : fsRead fs (dir ++ [a.name ++ ".toml"]) ≠ none
    · rw [if_pos hx]
      exact ih fs
    · rw [if_neg hx]
      cases hw : fsWriteF wfail fs (dir ++ [a.name ++ ".toml"]) a.content with
      | none => rfl
      | some fs1 =>
        have h1 : has_user_templates fs1 dir2 = has_user_templates fs dir2 := by
          unfold fsWriteF at hw
          by_cases hwp : wfail (dir ++ [a.name ++ ".toml"]) = true
          · rw [if_pos hwp] at hw
            cases hw
          · rw [if_neg hwp] at hw
            cases hw
            unfold has_user_templates fsWrite
            simp only [List.any_cons]
            have hchild : isDirectTomlChild dir2 (dir ++ [a.name ++ ".toml"])
                = false := by
              unfold isDirectTomlChild
              have htake : (dir ++ [a.name ++ ".toml"]).take dir2.length = dir := by
                rw [hlen]
                exact List.take_left dir _
              rw [htake]
              rw [decide_eq_false hne, Bool.false_and]
            rw [hchild]
            simp
        dsimp only
        cases hloop : ensureKindLoop wfail dir rest fs1 with
        | mk e2 fs2 =>
          have h2 := ih fs1
          rw [hloop] at h2
          cases e2 <;> exact h2.trans h1

theorem ensureKindLoop_all (dir : FsPath) (assets : List TemplateAsset)
    (fs : Fs)
    (hnone : ∀ a ∈ assets, fsRead fs (dir ++ [a.name ++ ".toml"]) = none)
    (hnd : (assets.map TemplateAsset.name).Nodup) :
    (ensureKindLoop noFail dir assets fs).1
      = .ok (assets.map (fun a => display (dir ++ [a.name ++ ".toml"]))) ∧
    ∀ a ∈ assets, fsRead (ensureKindLoop noFail dir assets fs).2
        (dir ++ [a.name ++ ".toml"]) = some a.content := by
  induction assets generalizing fs with
  | nil => exact ⟨rfl, fun a ha => absurd ha (List.not_mem_nil a)⟩
  | cons a rest ih =>
    simp only [List.map_cons, List.nodup_cons] at hnd
    obtain ⟨hna, hndr⟩ := hnd
    simp only [ensureKindLoop]
    have hx0 := hnone a (List.mem_cons_self a rest)
    rw [if_neg (fun hc => hc hx0)]
    rw [fsWriteF_noFail]
    dsimp only
    have hpath : ∀ b ∈ rest,
        dir ++ [b.name ++ ".toml"] ≠ dir ++ [a.name ++ ".toml"] := by
      intro b hb heqp
      apply hna
      have h1 : b.name ++ ".toml" = a.name ++ ".toml" := by
        have h0 := List.append_cancel_left heqp
        simp only [List.cons.injEq, and_true] at h0
        exact h0
      have hdd := congrArg String.data h1
      rw [string_data_append, string_data_append] at hdd
      have h2 : b.name = a.name :=
        string_inj _ _ (List.append_cancel_right hdd)
      exact h2 ▸ List.mem_map_of_mem TemplateAsset.name hb
    have hrestnone : ∀ b ∈ rest,
        fsRead (fsWrite fs (dir ++ [a.name ++ ".toml"]) a.content)
          (dir ++ [b.name ++ ".toml"]) = none := by
      intro b hb
      rw [fsRead_fsWrite_ne _ _ _ _ (Ne.symm (hpath b hb))]
      exact hnone b (List.mem_cons_of_mem a hb)
    obtain ⟨ih1, ih2⟩ :=
      ih (fsWrite fs (dir ++ [a.name ++ ".toml"]) a.content) hrestnone hndr
    cases hloop : ensureKindLoop noFail dir rest
        (fsWrite fs (dir ++ [a.name ++ ".toml"]) a.content) with
    | mk e2 fs2 =>
      rw [hloop] at ih1 ih2
      simp only at ih1
      subst ih1
      dsimp only
      refine ⟨rfl, ?_⟩
      intro b hb
      rcases List.mem_cons.1 hb with rfl | hbr
      · have hpres := ensureKindLoop_fs_other noFail dir rest
          (fsWrite fs (dir ++ [b.name ++ ".toml"]) b.content)
          (dir ++ [b.name ++ ".toml"]) (fun c hc => Ne.symm (hpath c hc))
        rw [hloop] at hpres
        dsimp only at hpres ⊢
        rw [hpres, fsRead_fsWrite, if_pos rfl]
      · exact ih2 b hbr

theorem ensureKindPhase_skip (wfail : FsPath → Bool)
    (catalog : List TemplateAsset) (cfg : FsPath) (k : TemplateKind) (fs : Fs)
    (hu : has_user_templates fs (kind_dir cfg k) = true) :
    ensureKindPhase wfail catalog cfg k fs = (.ok [], fs) := by
  unfold ensureKindPhase
  rw [if_pos hu]

theorem ensureKindPhase_noFail_ok (catalog : List TemplateAsset)
    (cfg : FsPath) (k : TemplateKind) (fs : Fs) :
    ∃ c, (ensureKindPhase noFail catalog cfg k fs).1 = .ok c := by
  unfold ensureKindPhase
  by_cases hu : has_user_templates fs (kind_dir cfg k) = true
  · rw [if_pos hu]
    exact ⟨[], rfl⟩
  · rw [if_neg hu]
    exact ensureKindLoop_noFail_ok _ _ fs

theorem ensureKindPhase_fs_other (wfail : FsPath → Bool)
    (catalog : List TemplateAsset) (cfg : FsPath) (k : TemplateKind) (fs : Fs)
    (q : FsPath) (hq : ∀ nm : String, q ≠ kind_dir cfg k ++ [nm]) :
    fsRead (ensureKindPhase wfail catalog cfg k fs).2 q = fsRead fs q := by
  unfold ensureKindPhase
  by_cases hu : has_user_templates fs (kind_dir cfg k) = true
  · rw [if_pos hu]
  · rw [if_neg hu]
    exact ensureKindLoop_fs_other wfail _ _ fs q (fun a _ => hq (a.name ++ ".toml"))

theorem ensureKindPhase_has_user (wfail : FsPath → Bool)
    (catalog : List TemplateAsset) (cfg : FsPath) (k : TemplateKind) (fs : Fs)
    (dir2 : FsPath) (hne : kind_dir cfg k ≠ dir2)
    (hlen : dir2.length = (kind_dir cfg k).length) :
    has_user_templates (ensureKindPhase wfail catalog cfg k fs).2 dir2
      = has_user_templates fs dir2 := by
  unfold ensureKindPhase
  by_cases hu : has_user_templates fs (kind_dir cfg k) = true
  · rw [if_pos hu]
  · rw [if_neg hu]
    exact ensureKindLoop_has_user wfail _ _ fs dir2 hne hlen

theorem ensureKindPhase_all (catalog : List TemplateAsset) (cfg : FsPath)
    (k : TemplateKind) (fs : Fs)
    (hu : has_user_templates fs (kind_dir cfg k) = false)
    (hnames : ∀ a ∈ catalog, a.name ≠ "")
    (hnd : ((catalog.filter (fun a => decide (a.kind = k))).map
      TemplateAsset.name).Nodup) :
    (ensureKindPhase noFail catalog cfg k fs).1
      = .ok ((catalog.filter (fun a => decide (a.kind = k))).map
          (fun a => display (kind_dir cfg k ++ [a.name ++ ".toml"]))) ∧
    ∀ a ∈ catalog.filter (fun a => decide (a.kind = k)),
      fsRead (ensureKindPhase noFail catalog cfg k fs).2
        (kind_dir cfg k ++ [a.name ++ ".toml"]) = some a.content := by
  unfold ensureKindPhase
  rw [if_neg (by simp [hu])]
  refine ensureKindLoop_all _ _ fs ?_ hnd
  intro a ha
  exact fsRead_of_has_user_false fs _ _ hu
    (hasTomlExt_append a.name (hnames a (List.mem_of_mem_filter ha)))

/-- C8: bootstrap initialization seeds a kind exactly when its user
directory holds no direct .toml file: every catalog asset of a fresh kind
is written to that kind's directory and reported in created, a kind whose
directory already holds a template file is left entirely untouched, and a
fresh manifest covering the whole catalog is persisted exactly when at
least one file was created. -/
theorem claim_C8 (hash : String → String) (catalog : List TemplateAsset)
    (v : String) (cfg : FsPath) (fs : Fs)
    (hnames : ∀ a ∈ catalog, a.name ≠ "")
    (hnd : ∀ k : TemplateKind,
      ((catalog.filter (fun a => decide (a.kind = k))).map
        TemplateAsset.name).Nodup) :
    ∃ created,
      (ensure_templates_initialized_on hash noFail catalog v cfg fs).1
        = .ok created ∧
      (∀ a ∈ catalog, has_user_templates fs (kind_dir cfg a.kind) = false →
        fsRead (ensure_templates_initialized_on hash noFail catalog v cfg
            fs).2 (dest_path cfg a) = some a.content ∧
          display (dest_path cfg a) ∈ created) ∧
      (∀ k : TemplateKind, has_user_templates fs (kind_dir cfg k) = true →
        ∀ q : FsPath, q.take (cfg.length + 1) = kind_dir cfg k →
          fsRead (ensure_templates_initialized_on hash noFail catalog v cfg
            fs).2 q = fsRead fs q) ∧
      (created ≠ [] →
        fsRead (ensure_templates_initialized_on hash noFail catalog v cfg
            fs).2 (templates_manifest_path cfg)
          = some (saveManifestContent (manifest_of hash v catalog))) ∧
      (created = [] →
        fsRead (ensure_templates_initialized_on hash noFail catalog v cfg
            fs).2 (templates_manifest_path cfg)
          = fsRead fs (templates_manifest_path cfg)) := by
  cases hp1 : ensureKindPhase noFail catalog cfg .Baselines fs with
  | mk e1 fs1 =>
  obtain ⟨c1, hc1⟩ := ensureKindPhase_noFail_ok catalog cfg .Baselines fs
  rw [hp1] at hc1
  simp only at hc1
  subst hc1
  cases hp2 : ensureKindPhase noFail catalog cfg .Outcomes fs1 with
  | mk e2 fs2 =>
  obtain ⟨c2, hc2⟩ := ensureKindPhase_noFail_ok catalog cfg .Outcomes fs1
  rw [hp2] at hc2
  simp only at hc2
  subst hc2
  have hof1 : ∀ q : FsPath,
      (∀ nm : String, q ≠ kind_dir cfg .Baselines ++ [nm]) →
      fsRead fs1 q = fsRead fs q := by
    intro q hq
    have h := ensureKindPhase_fs_other noFail catalog cfg .Baselines fs q hq
    rw [hp1] at h
    exact h
  have hof2 : ∀ q : FsPath,
      (∀ nm : String, q ≠ kind_dir cfg .Outcomes ++ [nm]) →
      fsRead fs2 q = fsRead fs1 q := by
    intro q hq
    have h := ensureKindPhase_fs_other noFail catalog cfg .Outcomes fs1 q hq
    rw [hp2] at h
    exact h
  have hhu2 : has_user_templates fs1 (kind_dir cfg .Outcomes)
      = has_user_templates fs (kind_dir cfg .Outcomes) := by
    have h := ensureKindPhase_has_user noFail catalog cfg .Baselines fs
      (kind_dir cfg .Outcomes) (kind_dir_ne cfg)
      (by rw [kind_dir_length, kind_dir_length])
    rw [hp1] at h
    exact h
  have hpart1 : ∀ a ∈ catalog,
      has_user_templates fs (kind_dir cfg a.kind) = false →
      fsRead fs2 (dest_path cfg a) = some a.content ∧
        display (dest_path cfg a) ∈ c1 ++ c2 := by
    intro a ha hu
    cases hk : a.kind with
    | Baselines =>
      rw [hk] at hu
      have hfil : a ∈ catalog.filter
          (fun x => decide (x.kind = TemplateKind.Baselines)) :=
        List.mem_filter.2 ⟨ha, by rw [hk]; simp⟩
      obtain ⟨hall1, hall2⟩ :=
        ensureKindPhase_all catalog cfg .Baselines fs hu hnames (hnd _)
      have hr1 : fsRead fs1
          (kind_dir cfg .Baselines ++ [a.name ++ ".toml"]) = some a.content := by
        have h := hall2 a hfil
        rw [hp1] at h
        exact h
      have hr2 : fsRead fs2
          (kind_dir cfg .Baselines ++ [a.name ++ ".toml"]) = some a.content := by
        rw [hof2 _ (fun nm =>
          kind_child_ne cfg .Baselines .Outcomes _ nm (by decide))]
        exact hr1
      have hm1 : display (kind_dir cfg TemplateKind.Baselines
          ++ [a.name ++ ".toml"]) ∈ c1 := by
        have h := hall1
        rw [hp1] at h
        simp only at h
        rw [Except.ok.inj h]
        exact List.mem_map_of_mem _ hfil
      constructor
      · show fsRead fs2 (dest_path cfg a) = some a.content
        unfold dest_path
        rw [hk]
        exact hr2
      · show display (dest_path cfg a) ∈ c1 ++ c2
        unfold dest_path
        rw [hk]
        exact List.mem_append_left c2 hm1
    | Outcomes =>
      rw [hk] at hu
      have hu1 : has_user_templates fs1 (kind_dir cfg .Outcomes) = false := by
        rw [hhu2]
        exact hu
      have hfil : a ∈ catalog.filter
          (fun x => decide (x.kind = TemplateKind.Outcomes)) :=
        List.mem_filter.2 ⟨ha, by rw [hk]; simp⟩
      obtain ⟨hall1, hall2⟩ :=
        ensureKindPhase_all catalog cfg .Outcomes fs1 hu1 hnames (hnd _)
      have hr2 : fsRead fs2
          (kind_dir cfg .Outcomes ++ [a.name ++ ".toml"]) = some a.content := by
        have h := hall2 a hfil
        rw [hp2] at h
        exact h
      have hm2 : display (kind_dir cfg TemplateKind.Outcomes
          ++ [a.name ++ ".toml"]) ∈ c2 := by
        have h := hall1
        rw [hp2] at h
        simp only at h
        rw [Except.ok.inj h]
        exact List.mem_map_of_mem _ hfil
      constructor
      · show fsRead fs2 (dest_path cfg a) = some a.content
        unfold dest_path
        rw [hk]
        exact hr2
      · show display (dest_path cfg a) ∈ c1 ++ c2
        unfold dest_path
        rw [hk]
        exact List.mem_append_right c1 hm2
  have hpart2 : ∀ k : TemplateKind,
      has_user_templates fs (kind_dir cfg k) = true →
      ∀ q : FsPath, q.take (cfg.length + 1) = kind_dir cfg k →
        fsRead fs2 q = fsRead fs q := by
    intro k hu q hq
    cases k with
    | Baselines =>
      have hskip := ensureKindPhase_skip noFail catalog cfg .Baselines fs hu
      rw [hp1] at hskip
      have hfs1 : fs1 = fs := congrArg Prod.snd hskip
      have hq2 : ∀ nm : String, q ≠ kind_dir cfg .Outcomes ++ [nm] := by
        intro nm he
        rw [he, kind_child_take] at hq
        exact kind_dir_ne cfg hq.symm
      rw [hof2 q hq2, hfs1]
    | Outcomes =>
      have hu1 : has_user_templates fs1 (kind_dir cfg .Outcomes) = true := by
        rw [hhu2]
        exact hu
      have hskip := ensureKindPhase_skip noFail catalog cfg .Outcomes fs1 hu1
      rw [hp2] at hskip
      have hfs2 : fs2 = fs1 := congrArg Prod.snd hskip
      have hq1 : ∀ nm : String, q ≠ kind_dir cfg .Baselines ++ [nm] := by
        intro nm he
        rw [he, kind_child_take] at hq
        exact kind_dir_ne cfg hq
      rw [hfs2, hof1 q hq1]
  have hmanpres : fsRead fs2 (templates_manifest_path cfg)
      = fsRead fs (templates_manifest_path cfg) := by
    rw [hof2 _ (fun nm => manifest_ne_kind_child cfg .Outcomes nm),
      hof1 _ (fun nm => manifest_ne_kind_child cfg .Baselines nm)]
  unfold ensure_templates_initialized_on
  rw [hp1]
  dsimp only
  rw [hp2]
  dsimp only
  by_cases hcr : c1 ++ c2 = ([] : List String)
  · rw [if_pos hcr]
    refine ⟨c1 ++ c2, rfl, hpart1, hpart2, ?_, ?_⟩
    · intro hne
      exact absurd hcr hne
    · intro _
      exact hmanpres
  · rw [if_neg hcr]
    rw [show save_manifest noFail fs2 (templates_manifest_path cfg)
        (manifest_of hash v catalog)
      = some (fsWrite fs2 (templates_manifest_path cfg)
        (saveManifestContent (manifest_of hash v catalog))) from rfl]
    dsimp only
    refine ⟨c1 ++ c2, rfl, ?_, ?_, ?_, ?_⟩
    · intro a ha hu
      obtain ⟨hr, hm⟩ := hpart1 a ha hu
      refine ⟨?_, hm⟩
      rw [fsRead_fsWrite_ne _ _ _ _ (manifest_ne_dest cfg a)]
      exact hr
    · intro k hu q hq
      have hne : templates_manifest_path cfg ≠ q := by
        intro he
        rw [← he, manifest_take] at hq
        exact manifest_ne_kind_dir cfg k hq
      rw [fsRead_fsWrite_ne _ _ _ _ hne]
      exact hpart2 k hu q hq
    · intro _
      rw [fsRead_fsWrite, if_pos rfl]
    · intro hnil
      exact absurd hnil hcr

theorem claim_C8_witness :
    ∃ created,
      (ensure_templates_initialized_on id noFail
        [⟨TemplateKind.Baselines, "a", "x"⟩, ⟨TemplateKind.Outcomes, "b", "y"⟩]
        "1" ["c"] []).1 = .ok created ∧
      (∀ a ∈ [(⟨TemplateKind.Baselines, "a", "x"⟩ : TemplateAsset),
          ⟨TemplateKind.Outcomes, "b", "y"⟩],
        has_user_templates [] (kind_dir ["c"] a.kind) = false →
        fsRead (ensure_templates_initialized_on id noFail
            [⟨TemplateKind.Baselines, "a", "x"⟩,
              ⟨TemplateKind.Outcomes, "b", "y"⟩] "1" ["c"] []).2
            (dest_path ["c"] a) = some a.content ∧
          display (dest_path ["c"] a) ∈ created) ∧
      (∀ k : TemplateKind, has_user_templates [] (kind_dir ["c"] k) = true →
        ∀ q : FsPath, q.take ((["c"] : FsPath).length + 1) = kind_dir ["c"] k →
          fsRead (ensure_templates_initialized_on id noFail
            [⟨TemplateKind.Baselines, "a", "x"⟩,
              ⟨TemplateKind.Outcomes, "b", "y"⟩] "1" ["c"] []).2 q
            = fsRead [] q) ∧
      (created ≠ [] →
        fsRead (ensure_templates_initialized_on id noFail
            [⟨TemplateKind.Baselines, "a", "x"⟩,
              ⟨TemplateKind.Outcomes, "b", "y"⟩] "1" ["c"] []).2
            (templates_manifest_path ["c"])
          = some (saveManifestContent (manifest_of id "1"
              [⟨TemplateKind.Baselines, "a", "x"⟩,
                ⟨TemplateKind.Outcomes, "b", "y"⟩]))) ∧
      (created = [] →
        fsRead (ensure_templates_initialized_on id noFail
            [⟨TemplateKind.Baselines, "a", "x"⟩,
              ⟨TemplateKind.Outcomes, "b", "y"⟩] "1" ["c"] []).2
            (templates_manifest_path ["c"])
          = fsRead [] (templates_manifest_path ["c"])) :=
  claim_C8 id
    [⟨TemplateKind.Baselines, "a", "x"⟩, ⟨TemplateKind.Outcomes, "b", "y"⟩]
    "1" ["c"] [] (by decide) (fun k => by cases k <;> decide)

end Margo
